import Mathlib

/-!
# Verification development for the `cli-go` entry point

Part I embeds `src/main.go`: the function `main` and the five collaborator
calls it makes (`pkg.GetDB`, `api.NewClient`, `ctrl.Init`, `cmd.Execute`,
`db.Close`).  The collaborators live in packages that are not part of the
visible source, so they are parameters of the embedding; `main` itself is
translated statement by statement.

Part II models the synchronisation engine that the specification describes
(`EnsureFresh` and the data it works on).  No source file implements it, so
those definitions follow the specification's wording and say so.
-/

set_option autoImplicit false

namespace EnteCli

/-! ## Part I: `main.go` -/

/-- A Go `error` value that is not nil, identified by its message. -/
structure GoError where
  msg : String
deriving DecidableEq, Repr

/-- The value carried by a Go panic: `panic(err)` carries an error; a
collaborator may panic with any other value. -/
inductive PanicValue where
  | error (e : GoError)
  | other (description : String)
deriving DecidableEq, Repr

/-- How one call of a collaborator ends.  It returns its results; or it
panics; or it unwinds the goroutine with `runtime.Goexit`, which like a panic
still runs the deferred calls of `main`; or it ends the process itself
(`os.Exit`) or never returns, and then no later statement and no deferred call
of `main` runs. -/
inductive Outcome (α : Type) where
  | returned (result : α)
  | panicked (v : PanicValue)
  | goexit
  | exited
deriving DecidableEq, Repr

/-- The store handle `db` returned by `pkg.GetDB` (a pointer, identified by a number). -/
structure Handle where
  ident : Nat
deriving DecidableEq, Repr

/-- The literal `api.Params` with the two fields `main` sets. -/
structure Params where
  Debug : Bool
  Host : String
deriving DecidableEq, Repr

/-- The client value returned by `api.NewClient` (identified by a number). -/
structure Client where
  ident : Nat
deriving DecidableEq, Repr

/-- The contents of the variable `ctrl` of type `pkg.ClICtrl`: the two fields
`main` sets. -/
structure ClICtrl where
  Client : Client
  DB : Handle
deriving DecidableEq, Repr

/-- The collaborators of `main`.  Each field gives, for the arguments of a
call, how that call ends on the run under consideration.  `GetDB` returns the
Go pair `(db, err)`; `Close` returns an `error` (`none` is nil).  `ctrl.Init()`
is called on the addressable variable `ctrl`, so with a pointer receiver it
may change the fields: `Init` takes the contents of `ctrl` before the call
and returns the contents it leaves together with its `error`. -/
structure Collaborators where
  GetDB : String → Outcome (Handle × Option GoError)
  NewClient : Params → Outcome Client
  Init : ClICtrl → Outcome (ClICtrl × Option GoError)
  Execute : ClICtrl → Outcome Unit
  Close : Handle → Outcome (Option GoError)

/-- One collaborator call made by `main`, with its arguments and how it ended.
For `init` and `execute` the argument is the contents of the variable `ctrl`
when the call starts. -/
inductive Event where
  | getDB (path : String) (out : Outcome (Handle × Option GoError))
  | newClient (p : Params) (out : Outcome Client)
  | init (c : ClICtrl) (out : Outcome (ClICtrl × Option GoError))
  | execute (c : ClICtrl) (out : Outcome Unit)
  | close (h : Handle) (out : Outcome (Option GoError))
deriving DecidableEq, Repr

/-- How `main` ends: it returns normally; the process dies with a panic; the
main goroutine is unwound by `runtime.Goexit`; or the process is ended (or
hangs) inside a collaborator call. -/
inductive Exit where
  | normal
  | panic (v : PanicValue)
  | goexit
  | exited
deriving DecidableEq, Repr

/-- A run of `main`: the collaborator calls in the order they happened, and
how `main` ended. -/
structure Run where
  trace : List Event
  exit : Exit
deriving DecidableEq, Repr

/-- The path literal on line 10 of `main.go`. -/
def dbPath : String := "ente-cli.db"

/-- The host literal on line 17 of `main.go`. -/
def serviceHost : String := "http://localhost:8080"

/-- The `api.Params` literal on lines 15-18 of `main.go`. -/
def clientParams : Params := ⟨false, serviceHost⟩

/-- The deferred function of lines 25-29 together with the Go rule for when it
runs.  It runs when `cmd.Execute` has returned, panicked or called
`runtime.Goexit`, and not when `cmd.Execute` ended the process.  It calls
`db.Close()` on the local variable `db` and panics with a non-nil error.  A
panic, a `Goexit` or a process exit raised here decides how `main` ends; when
`Close` returns nil the ending of `cmd.Execute` stands. -/
def deferredClose (w : Collaborators) (db : Handle) (executed : Outcome Unit) :
    List Event × Exit :=
  match executed with
  | .exited => ([], .exited)
  | .returned _ =>
    match w.Close db with
    | .returned none => ([.close db (.returned none)], .normal)
    | .returned (some e) => ([.close db (.returned (some e))], .panic (.error e))
    | .panicked v => ([.close db (.panicked v)], .panic v)
    | .goexit => ([.close db .goexit], .goexit)
    | .exited => ([.close db .exited], .exited)
  | .panicked u =>
    match w.Close db with
    | .returned none => ([.close db (.returned none)], .panic u)
    | .returned (some e) => ([.close db (.returned (some e))], .panic (.error e))
    | .panicked v => ([.close db (.panicked v)], .panic v)
    | .goexit => ([.close db .goexit], .goexit)
    | .exited => ([.close db .exited], .exited)
  | .goexit =>
    match w.Close db with
    | .returned none => ([.close db (.returned none)], .goexit)
    | .returned (some e) => ([.close db (.returned (some e))], .panic (.error e))
    | .panicked v => ([.close db (.panicked v)], .panic v)
    | .goexit => ([.close db .goexit], .goexit)
    | .exited => ([.close db .exited], .exited)

/-- The function `main` of `main.go`, lines 9-31. -/
def main (w : Collaborators) : Run :=
  -- db, err := pkg.GetDB("ente-cli.db")
  match w.GetDB dbPath with
  | .panicked v => ⟨[.getDB dbPath (.panicked v)], .panic v⟩
  | .goexit => ⟨[.getDB dbPath .goexit], .goexit⟩
  | .exited => ⟨[.getDB dbPath .exited], .exited⟩
  | .returned (db, some e) =>
    -- if err != nil { panic(err) }
    ⟨[.getDB dbPath (.returned (db, some e))], .panic (.error e)⟩
  | .returned (db, none) =>
    -- ctrl := pkg.ClICtrl{Client: api.NewClient(api.Params{...}), DB: db}
    match w.NewClient clientParams with
    | .panicked v =>
      ⟨[.getDB dbPath (.returned (db, none)), .newClient clientParams (.panicked v)], .panic v⟩
    | .goexit =>
      ⟨[.getDB dbPath (.returned (db, none)), .newClient clientParams .goexit], .goexit⟩
    | .exited =>
      ⟨[.getDB dbPath (.returned (db, none)), .newClient clientParams .exited], .exited⟩
    | .returned client =>
      let ctrl : ClICtrl := ⟨client, db⟩
      let opened : List Event :=
        [.getDB dbPath (.returned (db, none)), .newClient clientParams (.returned client)]
      -- err = ctrl.Init()
      match w.Init ctrl with
      | .panicked v => ⟨opened ++ [.init ctrl (.panicked v)], .panic v⟩
      | .goexit => ⟨opened ++ [.init ctrl .goexit], .goexit⟩
      | .exited => ⟨opened ++ [.init ctrl .exited], .exited⟩
      | .returned (ctrl', some e) =>
        -- if err != nil { panic(err) }
        ⟨opened ++ [.init ctrl (.returned (ctrl', some e))], .panic (.error e)⟩
      | .returned (ctrl', none) =>
        -- defer func() { ... db.Close() ... }() ; cmd.Execute(&ctrl)
        let executed := w.Execute ctrl'
        let closing := deferredClose w db executed
        ⟨opened ++ [.init ctrl (.returned (ctrl', none)), .execute ctrl' executed] ++ closing.1,
          closing.2⟩

/-- A run environment in which every collaborator returns without error and
`Init` leaves the controller as `main` built it. -/
def quietWorld : Collaborators where
  GetDB := fun _ => .returned (⟨1⟩, none)
  NewClient := fun _ => .returned ⟨7⟩
  Init := fun c => .returned (c, none)
  Execute := fun _ => .returned ()
  Close := fun _ => .returned none

/-- A run environment in which the store file is locked by another process:
`pkg.GetDB` returns a nil handle and an error. -/
def lockedWorld : Collaborators where
  GetDB := fun _ => .returned (⟨0⟩, some ⟨"lock busy"⟩)
  NewClient := fun _ => .returned ⟨7⟩
  Init := fun c => .returned (c, none)
  Execute := fun _ => .returned ()
  Close := fun _ => .returned none

/-- A run environment in which the store opens and `ctrl.Init` returns an error. -/
def initFailsWorld : Collaborators where
  GetDB := fun _ => .returned (⟨1⟩, none)
  NewClient := fun _ => .returned ⟨7⟩
  Init := fun c => .returned (c, some ⟨"init failed"⟩)
  Execute := fun _ => .returned ()
  Close := fun _ => .returned none

/-- A run environment in which `ctrl.Init`, through its pointer receiver,
replaces both fields of the controller before returning nil. -/
def rewiringWorld : Collaborators where
  GetDB := fun _ => .returned (⟨1⟩, none)
  NewClient := fun _ => .returned ⟨7⟩
  Init := fun _ => .returned (⟨⟨8⟩, ⟨2⟩⟩, none)
  Execute := fun _ => .returned ()
  Close := fun _ => .returned none

/-- A run environment in which `cmd.Execute` ends the process itself, as a
dispatcher does that calls `os.Exit` with its exit code. -/
def exitingWorld : Collaborators where
  GetDB := fun _ => .returned (⟨1⟩, none)
  NewClient := fun _ => .returned ⟨7⟩
  Init := fun c => .returned (c, none)
  Execute := fun _ => .exited
  Close := fun _ => .returned none

/-! ## Part II: the synchronisation engine of the specification

`main.go` only wires the controller; the engine behind `ctrl.Init` and
`cmd.Execute` is not part of the visible source.  The definitions below are
written from sections 3, 4.1, 4.2, 5, 6 and 8 of the specification. -/

namespace SyncEngine

/-- Modelled from the spec: the Entity of section 3 (no source file declares
it): a stable identifier, a version marker and a payload the engine only
stores.  The spec gives an Entity no deletion marker, so tombstones are not
part of the model. -/
structure Entity where
  id : Nat
  version : Nat
  payload : String
deriving DecidableEq, Repr

/-- Modelled from the spec: the `origin` bookkeeping of a LocalRecord
(section 3), remote-confirmed or locally-pending; not declared in the source. -/
inductive Origin where
  | remoteConfirmed
  | locallyPending
deriving DecidableEq, Repr

/-- Modelled from the spec: the LocalRecord of section 3 (not declared in the
source): the stored Entity plus `origin`, `dirty` and `lastSyncedVersion`. -/
structure LocalRecord where
  id : Nat
  version : Nat
  payload : String
  origin : Origin
  dirty : Bool
  lastSyncedVersion : Nat
deriving DecidableEq, Repr

/-- Modelled from the spec: the PendingMutation of section 3 (not declared in
the source): a queued local change with its idempotency token. -/
structure PendingMutation where
  id : Nat
  change : String
  token : Nat
deriving DecidableEq, Repr

/-- Modelled from the spec: the Local Store of sections 2 and 4.2 (not in the
source): the LocalRecords, the queue of PendingMutations, the remote data
staged by the conflict policy, the SyncCursor (a position in the remote's
ordered change stream) and the last full-sync timestamp that `EnsureFresh`
compares with `maxAge`. -/
structure LocalStore where
  records : List LocalRecord
  pending : List PendingMutation
  staged : List Entity
  cursor : Nat
  lastFullSync : Nat
deriving DecidableEq, Repr

/-- Modelled from the spec: the failure taxonomy of section 7 (not declared in
the source). -/
inductive Failure where
  | notFound
  | conflict
  | retryable
  | fatal
  | lockBusy
deriving DecidableEq, Repr

/-- Modelled from the spec: what fetch-from-cursor returns (section 4.1,
pagination protocol): an ordered batch, the next cursor and `hasMore`. -/
structure Page where
  batch : List Entity
  nextCursor : Nat
  hasMore : Bool
deriving DecidableEq, Repr

/-- Modelled from the spec: what `submitMutation` answers (section 6; not in
the source): accepted, conflict, or a classified failure. -/
inductive SubmitResult where
  | accepted
  | conflict
  | failure (f : Failure)
deriving DecidableEq, Repr

/-- Modelled from the spec: the state of the remote service as the Remote
Client shows it (sections 3, 4.1, 4.3, 6; not in the source): the ordered
change stream, cut into the pages in which it is served; for each cursor the
classified failure (if any) that a fetch from it ends with once the adapter's
own retries are used up; and the answer to `submitMutation` for an
idempotency token and payload.  A SyncCursor counts the pages already
processed. -/
structure Remote where
  pages : List (List Entity)
  outage : Nat → Option Failure
  submitMutation : Nat → String → SubmitResult

/-- Modelled from the spec: the Remote Client's `fetchFromCursor` (section 6;
not in the source).  It is a function of the cursor alone (section 5: the
fetch is idempotent with respect to a cursor value); past the end of the
stream there is nothing to return and the cursor stays where it is. -/
def fetchFromCursor (r : Remote) (c : Nat) : Except Failure Page :=
  match r.outage c with
  | some f => .error f
  | none =>
    if c < r.pages.length then
      .ok ⟨r.pages.getD c [], c + 1, decide (c + 1 < r.pages.length)⟩
    else
      .ok ⟨[], c, false⟩

/-- Modelled from the spec: whether a PendingMutation is outstanding for an
identifier (section 4.1, conflict policy). -/
def hasPending (s : LocalStore) (id : Nat) : Bool :=
  s.pending.any (fun m => m.id == id)

/-- Modelled from the spec: the LocalRecord written for an Entity observed
from the remote (section 3, lifecycle): remote-confirmed, clean, synced at the
Entity's version. -/
def fromRemote (e : Entity) : LocalRecord :=
  ⟨e.id, e.version, e.payload, .remoteConfirmed, false, e.version⟩

/-- Modelled from the spec: the per-Entity rule of `EnsureFresh` (section
4.1; not in the source).  Absent locally: insert.  Present with an outstanding
PendingMutation: the conflict policy applies, the remote data is staged and
neither the record nor the mutation is touched.  Present with an older or
equal version: overwrite.  The spec gives no rule for a clean record that is
newer than the remote Entity, so none is applied. -/
def applyEntity (s : LocalStore) (e : Entity) : LocalStore :=
  match s.records.find? (fun r => r.id == e.id) with
  | none => { s with records := s.records ++ [fromRemote e] }
  | some r =>
    if hasPending s e.id then
      { s with staged := s.staged ++ [e] }
    else if r.version ≤ e.version then
      { s with records := s.records.map (fun x => if x.id = e.id then fromRemote e else x) }
    else
      s

/-- Modelled from the spec: the atomic batch commit of section 4.2 (not in
the source): the page's Entities and the advanced cursor are written as a
unit. -/
def commitPage (s : LocalStore) (pg : Page) : LocalStore :=
  { pg.batch.foldl applyEntity s with cursor := pg.nextCursor }

/-- Modelled from the spec: how a sync pass ends (section 4.1: success or a
typed sync failure). -/
inductive SyncResult where
  | success
  | failure (f : Failure)
deriving DecidableEq, Repr

/-- Modelled from the spec: what a sync pass leaves behind: the Local Store,
the result reported to the caller, and the cursors it fetched from, in order. -/
structure Pass where
  store : LocalStore
  result : SyncResult
  fetched : List Nat
deriving DecidableEq, Repr

/-- Modelled from the spec: the pagination loop of `EnsureFresh` (section
4.1; not in the source): fetch from the current cursor, commit the page with
its `nextCursor`, and go on while `hasMore`.  A failure ends the pass and
keeps the pages committed so far. -/
def pullLoop (r : Remote) (s : LocalStore) : Pass :=
  match h : fetchFromCursor r s.cursor with
  | .error f => ⟨s, .failure f, [s.cursor]⟩
  | .ok pg =>
    if hm : pg.hasMore = true then
      let rest := pullLoop r (commitPage s pg)
      ⟨rest.store, rest.result, s.cursor :: rest.fetched⟩
    else
      ⟨commitPage s pg, .success, [s.cursor]⟩
termination_by r.pages.length - s.cursor
decreasing_by
  simp only [fetchFromCursor] at h
  split at h
  · cases h
  · split at h
    · cases h
      simp only [decide_eq_true_eq] at hm
      simp only [commitPage]
      omega
    · cases h
      simp at hm

/-- Modelled from the spec: the freshness test of `EnsureFresh(maxAge)`
(section 4.1): the last full-sync timestamp is older than `maxAge`, or the
refresh is forced. -/
def isDue (maxAge now : Nat) (forced : Bool) (s : LocalStore) : Bool :=
  forced || decide (maxAge < now - s.lastFullSync)

/-- Modelled from the spec: whether remote data is staged for an identifier,
that is, whether a remote change competes with the local mutations of that
identifier (section 4.1, conflict policy). -/
def hasStaged (s : LocalStore) (id : Nat) : Bool :=
  s.staged.any (fun e => e.id == id)

/-- Modelled from the spec: whether the flush sends a queued mutation and the
remote accepts it.  A mutation with a competing remote change is not sent: it
stays authoritative until the caller confirms or discards it (section 4.1,
conflict policy; section 8, last scenario). -/
def isFlushed (r : Remote) (s : LocalStore) (m : PendingMutation) : Bool :=
  !hasStaged s m.id && decide (r.submitMutation m.token m.change = .accepted)

/-- Modelled from the spec: what remote acceptance does to a LocalRecord
(section 4.1, `Mutate`): it clears the dirty flag and updates
`lastSyncedVersion`. -/
def confirmRecord (x : LocalRecord) : LocalRecord :=
  { x with dirty := false, lastSyncedVersion := x.version }

/-- Modelled from the spec: the flush of queued PendingMutations that section
8 attributes to `EnsureFresh` (not in the source).  Every queued mutation
without a competing remote change is submitted; an accepted one leaves the
queue and its record is confirmed; on conflict or failure it stays queued.
What the remote later serves back for an accepted mutation is a change of the
remote state and belongs to the `Remote` value of a later call. -/
def flushPending (r : Remote) (s : LocalStore) : LocalStore :=
  { s with
    pending := s.pending.filter (fun m => !isFlushed r s m)
    records := s.records.map (fun x =>
      if s.pending.any (fun m => m.id == x.id && isFlushed r s m) then confirmRecord x
      else x) }

/-- Modelled from the spec: what `EnsureFresh` does once the pagination loop
has ended.  After a successful pull the queued mutations are flushed and the
last full-sync timestamp is set to the clock reading; after a failure the
pages committed so far are kept and nothing else is written. -/
def finishPass (r : Remote) (now : Nat) (p : Pass) : Pass :=
  match p.result with
  | .success => ⟨{ flushPending r p.store with lastFullSync := now }, .success, p.fetched⟩
  | .failure f => ⟨p.store, .failure f, p.fetched⟩

/-- Modelled from the spec: `EnsureFresh(maxAge)` of section 4.1 (not in the
source): when the store is due, pull the remote changes since the SyncCursor
page by page, then flush the queued mutations and record the time of the
sync; otherwise leave the store alone and report success. -/
def EnsureFresh (maxAge now : Nat) (forced : Bool) (r : Remote) (s : LocalStore) : Pass :=
  if isDue maxAge now forced s then finishPass r now (pullLoop r s) else ⟨s, .success, []⟩

/-- Modelled from the spec: `Read(identifier)` of section 4.1 (not in the
source): the current LocalRecord of the identifier, from the Local Store
alone; `none` signals NotFound. -/
def Read (s : LocalStore) (id : Nat) : Option LocalRecord :=
  s.records.find? (fun x => x.id == id)

/-- Modelled from the spec: `List(filter)` of section 4.1 (not in the source):
the LocalRecords matching the filter, ordered by identifier, read from the
Local Store alone. -/
def listRecords (filter : LocalRecord → Bool) (s : LocalStore) : List LocalRecord :=
  (s.records.filter filter).insertionSort (fun a b => a.id ≤ b.id)

/-- Modelled from the spec: the filter of `List(all)`. -/
def all (_ : LocalRecord) : Bool := true

/-- Modelled from the spec: the empty Local Store of the two-page scenario
(section 8): nothing cached, nothing queued, the cursor at the start of the
change stream, never synced. -/
def emptyStore : LocalStore := ⟨[], [], [], 0, 0⟩

/-- Modelled from the spec: one `EnsureFresh` call of a sequence, with the
remote state it meets. -/
structure Call where
  maxAge : Nat
  now : Nat
  forced : Bool
  remote : Remote

/-- Modelled from the spec: a sequence of `EnsureFresh` calls on one Local
Store, each starting from the store the previous one left; the passes in
order. -/
def runCalls : List Call → LocalStore → List Pass
  | [], _ => []
  | c :: cs, s =>
    let p := EnsureFresh c.maxAge c.now c.forced c.remote s
    p :: runCalls cs p.store

/-- A change stream of five Entities served as a page of three and a page of
two, with no outage. -/
def twoPages : Remote where
  pages := [[⟨1, 1, "a"⟩, ⟨2, 1, "b"⟩, ⟨3, 1, "c"⟩], [⟨4, 1, "d"⟩, ⟨5, 1, "e"⟩]]
  outage := fun _ => none
  submitMutation := fun _ _ => .accepted

/-- A change stream of one page that updates identifier 7, on a remote that
accepts every mutation submitted to it. -/
def updateOfSeven : Remote where
  pages := [[⟨7, 4, "remote edit"⟩]]
  outage := fun _ => none
  submitMutation := fun _ _ => .accepted

/-- A Local Store whose record 7 is dirty and has a PendingMutation queued. -/
def storeWithPending : LocalStore where
  records := [⟨7, 3, "local edit", .locallyPending, true, 2⟩]
  pending := [⟨7, "local edit", 99⟩]
  staged := []
  cursor := 0
  lastFullSync := 0

/-- A Local Store that was last synchronised at time 100, when the remote had
no changes yet. -/
def cachedStore : LocalStore := ⟨[], [], [], 0, 100⟩

end SyncEngine

/-! ## Lemmas about the modelled sync engine -/

namespace SyncEngine

theorem fetch_hasMore {r : Remote} {c : Nat} {pg : Page}
    (h : fetchFromCursor r c = .ok pg) (hm : pg.hasMore = true) :
    pg.nextCursor = c + 1 ∧ c + 1 < r.pages.length := by
  simp only [fetchFromCursor] at h
  split at h
  · cases h
  · split at h
    · cases h
      simpa using hm
    · cases h
      simp at hm

theorem fetch_last {r : Remote} {c : Nat} {pg : Page}
    (h : fetchFromCursor r c = .ok pg) (hm : pg.hasMore = false) :
    r.pages.length ≤ pg.nextCursor ∧ c ≤ pg.nextCursor := by
  simp only [fetchFromCursor] at h
  split at h
  · cases h
  · split at h
    · cases h
      simp only [decide_eq_false_iff_not] at hm
      constructor <;> simp only <;> omega
    · cases h
      constructor <;> simp only <;> omega

theorem fetch_past_end {r : Remote} {c : Nat} {pg : Page}
    (h : fetchFromCursor r c = .ok pg) (hc : r.pages.length ≤ c) :
    pg = ⟨[], c, false⟩ := by
  simp only [fetchFromCursor] at h
  split at h
  · cases h
  · split at h
    · omega
    · cases h
      rfl

theorem commitPage_cursor (s : LocalStore) (pg : Page) :
    (commitPage s pg).cursor = pg.nextCursor := rfl

theorem commitPage_nothing (s : LocalStore) (b : Bool) :
    commitPage s ⟨[], s.cursor, b⟩ = s := rfl

theorem pullLoop_error {r : Remote} {s : LocalStore} {f : Failure}
    (h : fetchFromCursor r s.cursor = .error f) :
    pullLoop r s = ⟨s, .failure f, [s.cursor]⟩ := by
  rw [pullLoop]
  split
  · rename_i f' h'
    rw [h] at h'
    cases h'
    rfl
  · rename_i pg h'
    rw [h] at h'
    cases h'

theorem pullLoop_more {r : Remote} {s : LocalStore} {pg : Page}
    (h : fetchFromCursor r s.cursor = .ok pg) (hm : pg.hasMore = true) :
    pullLoop r s =
      ⟨(pullLoop r (commitPage s pg)).store, (pullLoop r (commitPage s pg)).result,
        s.cursor :: (pullLoop r (commitPage s pg)).fetched⟩ := by
  rw [pullLoop]
  split
  · rename_i f' h'
    rw [h] at h'
    cases h'
  · rename_i pg' h'
    rw [h] at h'
    cases h'
    simp [hm]

theorem pullLoop_last {r : Remote} {s : LocalStore} {pg : Page}
    (h : fetchFromCursor r s.cursor = .ok pg) (hm : pg.hasMore = false) :
    pullLoop r s = ⟨commitPage s pg, .success, [s.cursor]⟩ := by
  rw [pullLoop]
  split
  · rename_i f' h'
    rw [h] at h'
    cases h'
  · rename_i pg' h'
    rw [h] at h'
    cases h'
    simp [hm]

/-- Induction along the pagination loop. -/
theorem pullLoop_induction (r : Remote) (P : LocalStore → Prop)
    (herr : ∀ s f, fetchFromCursor r s.cursor = .error f → P s)
    (hlast : ∀ s pg, fetchFromCursor r s.cursor = .ok pg → pg.hasMore = false → P s)
    (hmore : ∀ s pg, fetchFromCursor r s.cursor = .ok pg → pg.hasMore = true →
      P (commitPage s pg) → P s) :
    ∀ s, P s := by
  have key : ∀ n s, r.pages.length - s.cursor = n → P s := by
    intro n
    induction n using Nat.strong_induction_on with
    | _ n ih =>
      intro s hn
      cases hf : fetchFromCursor r s.cursor with
      | error f => exact herr s f hf
      | ok pg =>
        cases hm : pg.hasMore with
        | false => exact hlast s pg hf hm
        | true =>
          have hc := fetch_hasMore hf hm
          refine hmore s pg hf hm (ih (r.pages.length - (commitPage s pg).cursor) ?_ _ rfl)
          rw [commitPage_cursor]
          omega
  exact fun s => key _ s rfl

theorem applyEntity_frame (s : LocalStore) (e : Entity) :
    (applyEntity s e).pending = s.pending ∧
    (applyEntity s e).cursor = s.cursor ∧
    (applyEntity s e).lastFullSync = s.lastFullSync := by
  unfold applyEntity
  split
  · exact ⟨rfl, rfl, rfl⟩
  · split
    · exact ⟨rfl, rfl, rfl⟩
    · split <;> exact ⟨rfl, rfl, rfl⟩

theorem foldl_applyEntity_frame (batch : List Entity) (s : LocalStore) :
    (batch.foldl applyEntity s).pending = s.pending ∧
    (batch.foldl applyEntity s).lastFullSync = s.lastFullSync := by
  induction batch generalizing s with
  | nil => exact ⟨rfl, rfl⟩
  | cons e es ih =>
    have h := applyEntity_frame s e
    have h2 := ih (applyEntity s e)
    simp only [List.foldl_cons]
    exact ⟨h2.1.trans h.1, h2.2.trans h.2.2⟩

theorem commitPage_frame (s : LocalStore) (pg : Page) :
    (commitPage s pg).pending = s.pending ∧
    (commitPage s pg).lastFullSync = s.lastFullSync :=
  foldl_applyEntity_frame pg.batch s

theorem pullLoop_frame (r : Remote) (s : LocalStore) :
    (pullLoop r s).store.pending = s.pending ∧
    (pullLoop r s).store.lastFullSync = s.lastFullSync := by
  refine pullLoop_induction r
    (fun s => (pullLoop r s).store.pending = s.pending ∧
      (pullLoop r s).store.lastFullSync = s.lastFullSync) ?_ ?_ ?_ s
  · intro s f hf
    simp only [pullLoop_error hf, and_self]
  · intro s pg hf hm
    simp only [pullLoop_last hf hm]
    exact commitPage_frame s pg
  · intro s pg hf hm ih
    simp only [pullLoop_more hf hm]
    have h := commitPage_frame s pg
    exact ⟨ih.1.trans h.1, ih.2.trans h.2⟩

theorem fetch_cursor_le {r : Remote} {c : Nat} {pg : Page}
    (h : fetchFromCursor r c = .ok pg) : c ≤ pg.nextCursor := by
  cases hm : pg.hasMore with
  | false => exact (fetch_last h hm).2
  | true => have := (fetch_hasMore h hm).1; omega

theorem pullLoop_cursor_le (r : Remote) (s : LocalStore) :
    s.cursor ≤ (pullLoop r s).store.cursor := by
  refine pullLoop_induction r (fun s => s.cursor ≤ (pullLoop r s).store.cursor) ?_ ?_ ?_ s
  · intro s f hf
    simp only [pullLoop_error hf, le_refl]
  · intro s pg hf hm
    simp only [pullLoop_last hf hm, commitPage_cursor]
    exact fetch_cursor_le hf
  · intro s pg hf hm ih
    simp only [pullLoop_more hf hm]
    have := fetch_cursor_le hf
    rw [commitPage_cursor] at ih
    omega

theorem hasPending_of_mem {s : LocalStore} {m : PendingMutation} (hm : m ∈ s.pending) :
    hasPending s m.id = true := by
  unfold hasPending
  rw [List.any_eq_true]
  exact ⟨m, hm, by simp⟩

theorem hasPending_congr {s t : LocalStore} (h : t.pending = s.pending) (id : Nat) :
    hasPending t id = hasPending s id := by
  unfold hasPending
  rw [h]

theorem applyEntity_keeps {s : LocalStore} {rec : LocalRecord} (e : Entity)
    (hrec : rec ∈ s.records) (hp : hasPending s rec.id = true) :
    rec ∈ (applyEntity s e).records ∧ ∀ x ∈ s.staged, x ∈ (applyEntity s e).staged := by
  unfold applyEntity
  split
  · exact ⟨List.mem_append_left _ hrec, fun x hx => hx⟩
  · split
    · exact ⟨hrec, fun x hx => List.mem_append_left _ hx⟩
    · rename_i hnp
      have hne : rec.id ≠ e.id := by
        intro h
        rw [h] at hp
        exact hnp hp
      split
      · refine ⟨?_, fun x hx => hx⟩
        simp only [List.mem_map]
        exact ⟨rec, hrec, by simp [hne]⟩
      · exact ⟨hrec, fun x hx => hx⟩

theorem applyEntity_stages {s : LocalStore} {rec : LocalRecord} {e : Entity}
    (hrec : rec ∈ s.records) (hp : hasPending s rec.id = true) (hid : e.id = rec.id) :
    e ∈ (applyEntity s e).staged := by
  unfold applyEntity
  split
  · rename_i hnone
    rw [List.find?_eq_none] at hnone
    have := hnone rec hrec
    simp [hid] at this
  · rw [hid, if_pos hp]
    simp

theorem foldl_applyEntity_keeps {rec : LocalRecord} (batch : List Entity) (s : LocalStore)
    (hrec : rec ∈ s.records) (hp : hasPending s rec.id = true) :
    rec ∈ (batch.foldl applyEntity s).records ∧
    (∀ x ∈ s.staged, x ∈ (batch.foldl applyEntity s).staged) ∧
    (∀ e ∈ batch, e.id = rec.id → e ∈ (batch.foldl applyEntity s).staged) := by
  induction batch generalizing s with
  | nil => exact ⟨hrec, fun x hx => hx, fun e he => by cases he⟩
  | cons a as ih =>
    have h1 := applyEntity_keeps a hrec hp
    have hp' : hasPending (applyEntity s a) rec.id = true := by
      rw [hasPending_congr (applyEntity_frame s a).1]
      exact hp
    have h2 := ih (applyEntity s a) h1.1 hp'
    simp only [List.foldl_cons]
    refine ⟨h2.1, fun x hx => h2.2.1 x (h1.2 x hx), ?_⟩
    intro e he hid
    rcases List.mem_cons.mp he with rfl | he
    · exact h2.2.1 e (applyEntity_stages hrec hp hid)
    · exact h2.2.2 e he hid

theorem pullLoop_keeps (r : Remote) {rec : LocalRecord} (s : LocalStore)
    (hrec : rec ∈ s.records) (hp : hasPending s rec.id = true) :
    rec ∈ (pullLoop r s).store.records ∧
    (∀ x ∈ s.staged, x ∈ (pullLoop r s).store.staged) ∧
    (∀ c ∈ (pullLoop r s).fetched, ∀ pg, fetchFromCursor r c = .ok pg →
      ∀ e ∈ pg.batch, e.id = rec.id → e ∈ (pullLoop r s).store.staged) := by
  revert hrec hp
  refine pullLoop_induction r
    (fun s => rec ∈ s.records → hasPending s rec.id = true →
      rec ∈ (pullLoop r s).store.records ∧
      (∀ x ∈ s.staged, x ∈ (pullLoop r s).store.staged) ∧
      (∀ c ∈ (pullLoop r s).fetched, ∀ pg, fetchFromCursor r c = .ok pg →
        ∀ e ∈ pg.batch, e.id = rec.id → e ∈ (pullLoop r s).store.staged)) ?_ ?_ ?_ s
  · intro s f hf hrec hp
    simp only [pullLoop_error hf, List.mem_singleton]
    refine ⟨hrec, fun x hx => hx, ?_⟩
    intro c hc pg hpg
    rw [hc, hf] at hpg
    cases hpg
  · intro s pg hf hm hrec hp
    simp only [pullLoop_last hf hm, List.mem_singleton]
    have h := foldl_applyEntity_keeps pg.batch s hrec hp
    refine ⟨h.1, h.2.1, ?_⟩
    intro c hc pg' hpg
    rw [hc, hf] at hpg
    cases hpg
    exact h.2.2
  · intro s pg hf hm ih hrec hp
    have h := foldl_applyEntity_keeps pg.batch s hrec hp
    have hp' : hasPending (commitPage s pg) rec.id = true := by
      rw [hasPending_congr (commitPage_frame s pg).1]
      exact hp
    have h2 := ih h.1 hp'
    simp only [pullLoop_more hf hm, List.mem_cons]
    refine ⟨h2.1, fun x hx => h2.2.1 x (h.2.1 x hx), ?_⟩
    intro c hc pg' hpg e he hid
    rcases hc with hc | hc
    · rw [hc, hf] at hpg
      cases hpg
      exact h2.2.1 e (h.2.2 e he hid)
    · exact h2.2.2 c hc pg' hpg e he hid

theorem applyEntity_absent {s : LocalStore} {e : Entity}
    (h : ∀ x ∈ s.records, x.id ≠ e.id) :
    applyEntity s e = { s with records := s.records ++ [fromRemote e] } := by
  unfold applyEntity
  have hnone : s.records.find? (fun r => r.id == e.id) = none := by
    rw [List.find?_eq_none]
    intro x hx
    simpa using h x hx
  rw [hnone]

theorem foldl_applyEntity_fresh (batch : List Entity) (s : LocalStore)
    (hnd : (batch.map (fun e => e.id)).Nodup)
    (hnew : ∀ e ∈ batch, ∀ x ∈ s.records, x.id ≠ e.id) :
    (batch.foldl applyEntity s).records = s.records ++ batch.map fromRemote := by
  induction batch generalizing s with
  | nil => simp
  | cons a as ih =>
    simp only [List.map_cons, List.nodup_cons, List.mem_map, not_exists, not_and] at hnd
    have ha := applyEntity_absent (hnew a (List.mem_cons_self _ _))
    simp only [List.foldl_cons, List.map_cons]
    rw [ih (applyEntity s a) hnd.2]
    · rw [ha]
      simp
    · intro e he x hx
      rw [ha] at hx
      simp only [List.mem_append, List.mem_singleton] at hx
      rcases hx with hx | hx
      · exact hnew e (List.mem_cons_of_mem _ he) x hx
      · rw [hx]
        intro h
        exact hnd.1 e he h.symm

theorem pullLoop_success_end (r : Remote) (s : LocalStore) :
    (pullLoop r s).result = .success → r.pages.length ≤ (pullLoop r s).store.cursor := by
  refine pullLoop_induction r
    (fun s => (pullLoop r s).result = .success →
      r.pages.length ≤ (pullLoop r s).store.cursor) ?_ ?_ ?_ s
  · intro s f hf h
    rw [pullLoop_error hf] at h
    cases h
  · intro s pg hf hm _
    rw [pullLoop_last hf hm]
    exact (fetch_last hf hm).1
  · intro s pg hf hm ih h
    rw [pullLoop_more hf hm] at h ⊢
    exact ih h

theorem finishPass_frame (r : Remote) (now : Nat) (p : Pass) :
    (finishPass r now p).store.cursor = p.store.cursor ∧
    (finishPass r now p).store.staged = p.store.staged ∧
    (finishPass r now p).result = p.result ∧
    (finishPass r now p).fetched = p.fetched := by
  unfold finishPass
  split
  · rename_i h
    exact ⟨rfl, rfl, h.symm, rfl⟩
  · rename_i f h
    exact ⟨rfl, rfl, h.symm, rfl⟩

theorem finishPass_success {r : Remote} {now : Nat} {p : Pass} (h : p.result = .success) :
    finishPass r now p =
      ⟨{ flushPending r p.store with lastFullSync := now }, .success, p.fetched⟩ := by
  unfold finishPass
  rw [h]

theorem finishPass_failure {r : Remote} {now : Nat} {p : Pass} {f : Failure}
    (h : p.result = .failure f) :
    finishPass r now p = ⟨p.store, .failure f, p.fetched⟩ := by
  unfold finishPass
  rw [h]

theorem ensureFresh_due {maxAge now : Nat} {forced : Bool} {s : LocalStore} (r : Remote)
    (h : isDue maxAge now forced s = true) :
    EnsureFresh maxAge now forced r s = finishPass r now (pullLoop r s) := by
  unfold EnsureFresh
  rw [if_pos h]

theorem ensureFresh_cursor_le (maxAge now : Nat) (forced : Bool) (r : Remote) (s : LocalStore) :
    s.cursor ≤ (EnsureFresh maxAge now forced r s).store.cursor := by
  unfold EnsureFresh
  split
  · rw [(finishPass_frame r now (pullLoop r s)).1]
    exact pullLoop_cursor_le r s
  · exact le_refl _

theorem twoPages_pull :
    pullLoop twoPages emptyStore =
      ⟨commitPage (commitPage emptyStore ⟨[⟨1, 1, "a"⟩, ⟨2, 1, "b"⟩, ⟨3, 1, "c"⟩], 1, true⟩)
          ⟨[⟨4, 1, "d"⟩, ⟨5, 1, "e"⟩], 2, false⟩, .success, [0, 1]⟩ := by
  have h1 : fetchFromCursor twoPages emptyStore.cursor =
      .ok ⟨[⟨1, 1, "a"⟩, ⟨2, 1, "b"⟩, ⟨3, 1, "c"⟩], 1, true⟩ := rfl
  have h2 : fetchFromCursor twoPages
      (commitPage emptyStore ⟨[⟨1, 1, "a"⟩, ⟨2, 1, "b"⟩, ⟨3, 1, "c"⟩], 1, true⟩).cursor =
      .ok ⟨[⟨4, 1, "d"⟩, ⟨5, 1, "e"⟩], 2, false⟩ := rfl
  rw [pullLoop_more h1 rfl, pullLoop_last h2 rfl]
  rfl

theorem updateOfSeven_pull :
    pullLoop updateOfSeven storeWithPending =
      ⟨commitPage storeWithPending ⟨[⟨7, 4, "remote edit"⟩], 1, false⟩, .success, [0]⟩ := by
  have h1 : fetchFromCursor updateOfSeven storeWithPending.cursor =
      .ok ⟨[⟨7, 4, "remote edit"⟩], 1, false⟩ := rfl
  rw [pullLoop_last h1 rfl]
  rfl

theorem pullLoop_failure_again (r : Remote) (s : LocalStore) (f : Failure) :
    (pullLoop r s).result = .failure f →
      pullLoop r (pullLoop r s).store =
        ⟨(pullLoop r s).store, .failure f, [(pullLoop r s).store.cursor]⟩ := by
  refine pullLoop_induction r
    (fun s => (pullLoop r s).result = .failure f →
      pullLoop r (pullLoop r s).store =
        ⟨(pullLoop r s).store, .failure f, [(pullLoop r s).store.cursor]⟩) ?_ ?_ ?_ s
  · intro s g hg h
    rw [pullLoop_error hg] at h ⊢
    cases h
    exact pullLoop_error hg
  · intro s pg hf hm h
    rw [pullLoop_last hf hm] at h
    cases h
  · intro s pg hf hm ih h
    rw [pullLoop_more hf hm] at h ⊢
    exact ih h

theorem pullLoop_at_end {r : Remote} {s : LocalStore} (h : r.pages.length ≤ s.cursor) :
    pullLoop r s = ⟨s, .success, [s.cursor]⟩ ∨
    ∃ f, pullLoop r s = ⟨s, .failure f, [s.cursor]⟩ := by
  cases hf : fetchFromCursor r s.cursor with
  | error f => exact Or.inr ⟨f, pullLoop_error hf⟩
  | ok pg =>
    have hp := fetch_past_end hf h
    subst hp
    exact Or.inl (pullLoop_last hf rfl)

theorem isFlushed_congr (r : Remote) {s t : LocalStore} (h : t.staged = s.staged)
    (m : PendingMutation) : isFlushed r t m = isFlushed r s m := by
  unfold isFlushed hasStaged
  rw [h]

theorem flushPending_settled (r : Remote) (t : LocalStore)
    (h : ∀ m ∈ t.pending, isFlushed r t m = false) : flushPending r t = t := by
  have hp : t.pending.filter (fun m => !isFlushed r t m) = t.pending := by
    rw [List.filter_eq_self]
    intro m hm
    simp [h m hm]
  have hr : t.records.map (fun x =>
      if t.pending.any (fun m => m.id == x.id && isFlushed r t m) then confirmRecord x
      else x) = t.records := by
    have hx : ∀ x : LocalRecord,
        t.pending.any (fun m => m.id == x.id && isFlushed r t m) = false := by
      intro x
      rw [List.any_eq_false]
      intro m hm
      simp [h m hm]
    simp [hx]
  unfold flushPending
  rw [hp, hr]

theorem flushPending_twice (r : Remote) (s : LocalStore) (now : Nat) :
    flushPending r { flushPending r s with lastFullSync := now } =
      { flushPending r s with lastFullSync := now } := by
  apply flushPending_settled
  intro m hm
  have hm' : m ∈ s.pending.filter (fun m => !isFlushed r s m) := hm
  rw [List.mem_filter] at hm'
  have hc : isFlushed r { flushPending r s with lastFullSync := now } m = isFlushed r s m :=
    isFlushed_congr r rfl m
  rw [hc]
  simpa using hm'.2

theorem find_map_keep {p : LocalRecord → Bool} {f : LocalRecord → LocalRecord}
    (hp : ∀ x, p (f x) = p x) (hf : ∀ x, p x = true → f x = x) (l : List LocalRecord) :
    (l.map f).find? p = l.find? p := by
  induction l with
  | nil => rfl
  | cons a as ih =>
    simp only [List.map_cons, List.find?_cons, hp a]
    cases ha : p a with
    | true => simp [hf a ha]
    | false => simpa using ih

theorem applyEntity_read {s : LocalStore} {rec : LocalRecord} {i : Nat} (e : Entity)
    (hp : hasPending s i = true) (hr : Read s i = some rec) :
    Read (applyEntity s e) i = some rec := by
  unfold Read at hr ⊢
  unfold applyEntity
  split
  · simp only [List.find?_append, hr]
    rfl
  · split
    · exact hr
    · rename_i hnp
      have hne : i ≠ e.id := by
        intro h
        rw [h] at hp
        exact hnp hp
      split
      · simp only
        rw [find_map_keep _ _ s.records]
        · exact hr
        · intro x
          by_cases hx : x.id = e.id
          · simp [hx, fromRemote]
          · simp [hx]
        · intro x hx
          have hxi : x.id = i := by simpa using hx
          have : x.id ≠ e.id := by rw [hxi]; exact hne
          simp [this]
      · exact hr

theorem foldl_applyEntity_read {rec : LocalRecord} {i : Nat} (batch : List Entity)
    (s : LocalStore) (hp : hasPending s i = true) (hr : Read s i = some rec) :
    Read (batch.foldl applyEntity s) i = some rec := by
  induction batch generalizing s with
  | nil => exact hr
  | cons a as ih =>
    simp only [List.foldl_cons]
    refine ih (applyEntity s a) ?_ (applyEntity_read a hp hr)
    rw [hasPending_congr (applyEntity_frame s a).1]
    exact hp

theorem pullLoop_read (r : Remote) {rec : LocalRecord} {i : Nat} (s : LocalStore)
    (hp : hasPending s i = true) (hr : Read s i = some rec) :
    Read (pullLoop r s).store i = some rec := by
  revert hp hr
  refine pullLoop_induction r
    (fun s => hasPending s i = true → Read s i = some rec →
      Read (pullLoop r s).store i = some rec) ?_ ?_ ?_ s
  · intro s f hf _ hr
    rw [pullLoop_error hf]
    exact hr
  · intro s pg hf hm hp hr
    rw [pullLoop_last hf hm]
    exact foldl_applyEntity_read pg.batch s hp hr
  · intro s pg hf hm ih hp hr
    rw [pullLoop_more hf hm]
    refine ih ?_ (foldl_applyEntity_read pg.batch s hp hr)
    rw [hasPending_congr (commitPage_frame s pg).1]
    exact hp

theorem flushPending_keeps {r : Remote} {s : LocalStore} {rec : LocalRecord}
    {m : PendingMutation} (hm : m ∈ s.pending) (hst : hasStaged s rec.id = true)
    (hid : m.id = rec.id) (hr : Read s rec.id = some rec) :
    m ∈ (flushPending r s).pending ∧ Read (flushPending r s) rec.id = some rec := by
  have hno : ∀ m' : PendingMutation, m'.id = rec.id → isFlushed r s m' = false := by
    intro m' h'
    unfold isFlushed
    rw [h', hst]
    rfl
  constructor
  · show m ∈ s.pending.filter (fun m => !isFlushed r s m)
    rw [List.mem_filter]
    exact ⟨hm, by simp [hno m hid]⟩
  · unfold Read at hr ⊢
    show (s.records.map _).find? _ = some rec
    rw [find_map_keep _ _ s.records]
    · exact hr
    · intro x
      split <;> rfl
    · intro x hx
      have hxi : x.id = rec.id := by simpa using hx
      have hfalse : s.pending.any (fun m => m.id == x.id && isFlushed r s m) = false := by
        rw [List.any_eq_false]
        intro m' _
        by_cases h' : m'.id = x.id
        · simp [hno m' (h'.trans hxi)]
        · simp [h']
      simp [hfalse]

theorem hasStaged_of_mem {s : LocalStore} {e : Entity} (he : e ∈ s.staged) :
    hasStaged s e.id = true := by
  unfold hasStaged
  rw [List.any_eq_true]
  exact ⟨e, he, by simp⟩

theorem twoPages_pull_cached :
    pullLoop twoPages cachedStore =
      ⟨commitPage (commitPage cachedStore ⟨[⟨1, 1, "a"⟩, ⟨2, 1, "b"⟩, ⟨3, 1, "c"⟩], 1, true⟩)
          ⟨[⟨4, 1, "d"⟩, ⟨5, 1, "e"⟩], 2, false⟩, .success, [0, 1]⟩ := by
  have h1 : fetchFromCursor twoPages cachedStore.cursor =
      .ok ⟨[⟨1, 1, "a"⟩, ⟨2, 1, "b"⟩, ⟨3, 1, "c"⟩], 1, true⟩ := rfl
  have h2 : fetchFromCursor twoPages
      (commitPage cachedStore ⟨[⟨1, 1, "a"⟩, ⟨2, 1, "b"⟩, ⟨3, 1, "c"⟩], 1, true⟩).cursor =
      .ok ⟨[⟨4, 1, "d"⟩, ⟨5, 1, "e"⟩], 2, false⟩ := rfl
  rw [pullLoop_more h1 rfl, pullLoop_last h2 rfl]
  rfl

theorem twoPages_at_end (s : LocalStore) (h : s.cursor = 2) :
    pullLoop twoPages s = ⟨s, .success, [2]⟩ := by
  have hf : fetchFromCursor twoPages s.cursor = .ok ⟨[], s.cursor, false⟩ := by
    rw [h]
    rfl
  rw [pullLoop_last hf rfl, commitPage_nothing, h]

end SyncEngine

/-! ## Lemmas about `main` -/

/-- The deferred `Close` is skipped exactly when `cmd.Execute` ended the
process; otherwise it is the one call made, and a non-nil error it returns is
the panic value. -/
theorem deferredClose_cases (w : Collaborators) (db : Handle) (x : Outcome Unit) :
    (x = .exited ∧ deferredClose w db x = ([], .exited)) ∨
    (x ≠ .exited ∧ (deferredClose w db x).1 = [.close db (w.Close db)] ∧
      ∀ e, w.Close db = .returned (some e) →
        (deferredClose w db x).2 = .panic (.error e)) := by
  cases x with
  | exited => exact Or.inl ⟨rfl, rfl⟩
  | returned u =>
    refine Or.inr ⟨by simp, ?_, ?_⟩
    · unfold deferredClose
      cases hc : w.Close db with
      | returned r => cases r <;> rfl
      | panicked v => rfl
      | goexit => rfl
      | exited => rfl
    · intro e he
      unfold deferredClose
      simp [he]
  | panicked u =>
    refine Or.inr ⟨by simp, ?_, ?_⟩
    · unfold deferredClose
      cases hc : w.Close db with
      | returned r => cases r <;> rfl
      | panicked v => rfl
      | goexit => rfl
      | exited => rfl
    · intro e he
      unfold deferredClose
      simp [he]
  | goexit =>
    refine Or.inr ⟨by simp, ?_, ?_⟩
    · unfold deferredClose
      cases hc : w.Close db with
      | returned r => cases r <;> rfl
      | panicked v => rfl
      | goexit => rfl
      | exited => rfl
    · intro e he
      unfold deferredClose
      simp [he]

/-- The four stages at which a run of `main` can end, by the outcome of each
collaborator call it reaches. -/
theorem main_stages (w : Collaborators) :
    (∃ o exit, w.GetDB dbPath = o ∧ (∀ db, o ≠ .returned (db, none)) ∧
        (∀ db e, o = .returned (db, some e) → exit = .panic (.error e)) ∧
        main w = ⟨[.getDB dbPath o], exit⟩) ∨
    (∃ db o exit, w.GetDB dbPath = .returned (db, none) ∧
        w.NewClient clientParams = o ∧ (∀ c, o ≠ .returned c) ∧
        main w = ⟨[.getDB dbPath (.returned (db, none)), .newClient clientParams o], exit⟩) ∨
    (∃ db client o exit, w.GetDB dbPath = .returned (db, none) ∧
        w.NewClient clientParams = .returned client ∧
        w.Init ⟨client, db⟩ = o ∧ (∀ c, o ≠ .returned (c, none)) ∧
        (∀ c e, o = .returned (c, some e) → exit = .panic (.error e)) ∧
        main w = ⟨[.getDB dbPath (.returned (db, none)),
          .newClient clientParams (.returned client),
          .init ⟨client, db⟩ o], exit⟩) ∨
    (∃ db client c, w.GetDB dbPath = .returned (db, none) ∧
        w.NewClient clientParams = .returned client ∧
        w.Init ⟨client, db⟩ = .returned (c, none) ∧
        main w = ⟨[.getDB dbPath (.returned (db, none)),
          .newClient clientParams (.returned client),
          .init ⟨client, db⟩ (.returned (c, none)),
          .execute c (w.Execute c)] ++ (deferredClose w db (w.Execute c)).1,
          (deferredClose w db (w.Execute c)).2⟩) := by
  unfold main
  cases hdb : w.GetDB dbPath with
  | panicked v => exact Or.inl ⟨_, _, rfl, by simp, by simp, rfl⟩
  | goexit => exact Or.inl ⟨_, _, rfl, by simp, by simp, rfl⟩
  | exited => exact Or.inl ⟨_, _, rfl, by simp, by simp, rfl⟩
  | returned res =>
    obtain ⟨db, err⟩ := res
    cases err with
    | some e => exact Or.inl ⟨_, _, rfl, by simp, by simp, rfl⟩
    | none =>
      refine Or.inr ?_
      cases hcl : w.NewClient clientParams with
      | panicked v => exact Or.inl ⟨db, _, _, rfl, rfl, by simp, rfl⟩
      | goexit => exact Or.inl ⟨db, _, _, rfl, rfl, by simp, rfl⟩
      | exited => exact Or.inl ⟨db, _, _, rfl, rfl, by simp, rfl⟩
      | returned client =>
        refine Or.inr ?_
        cases hin : w.Init ⟨client, db⟩ with
        | panicked v =>
          exact Or.inl ⟨db, client, .panicked v, .panic v, rfl, rfl, hin, by simp, by simp,
            by simp [hin]⟩
        | goexit =>
          exact Or.inl ⟨db, client, .goexit, .goexit, rfl, rfl, hin, by simp, by simp,
            by simp [hin]⟩
        | exited =>
          exact Or.inl ⟨db, client, .exited, .exited, rfl, rfl, hin, by simp, by simp,
            by simp [hin]⟩
        | returned res =>
          obtain ⟨c, err⟩ := res
          cases err with
          | some e =>
            exact Or.inl ⟨db, client, .returned (c, some e), .panic (.error e), rfl, rfl, hin,
              by simp, by simp, by simp [hin]⟩
          | none =>
            exact Or.inr ⟨db, client, c, rfl, rfl, hin, by simp [hin]⟩

/-- The five shapes of a run of `main`: it stops at `GetDB`, at `NewClient`
or at `Init`; or `Init` returns nil and `cmd.Execute` ends the process; or
`cmd.Execute` hands control back and the deferred `Close` runs. -/
theorem main_cases (w : Collaborators) :
    (∃ o exit, w.GetDB dbPath = o ∧ (∀ db, o ≠ .returned (db, none)) ∧
        (∀ db e, o = .returned (db, some e) → exit = .panic (.error e)) ∧
        main w = ⟨[.getDB dbPath o], exit⟩) ∨
    (∃ db o exit, w.GetDB dbPath = .returned (db, none) ∧
        w.NewClient clientParams = o ∧ (∀ c, o ≠ .returned c) ∧
        main w = ⟨[.getDB dbPath (.returned (db, none)), .newClient clientParams o], exit⟩) ∨
    (∃ db client o exit, w.GetDB dbPath = .returned (db, none) ∧
        w.NewClient clientParams = .returned client ∧
        w.Init ⟨client, db⟩ = o ∧ (∀ c, o ≠ .returned (c, none)) ∧
        (∀ c e, o = .returned (c, some e) → exit = .panic (.error e)) ∧
        main w = ⟨[.getDB dbPath (.returned (db, none)),
          .newClient clientParams (.returned client),
          .init ⟨client, db⟩ o], exit⟩) ∨
    (∃ db client c, w.GetDB dbPath = .returned (db, none) ∧
        w.NewClient clientParams = .returned client ∧
        w.Init ⟨client, db⟩ = .returned (c, none) ∧
        w.Execute c = .exited ∧
        main w = ⟨[.getDB dbPath (.returned (db, none)),
          .newClient clientParams (.returned client),
          .init ⟨client, db⟩ (.returned (c, none)),
          .execute c .exited], .exited⟩) ∨
    (∃ db client c exit, w.GetDB dbPath = .returned (db, none) ∧
        w.NewClient clientParams = .returned client ∧
        w.Init ⟨client, db⟩ = .returned (c, none) ∧
        w.Execute c ≠ .exited ∧
        (∀ e, w.Close db = .returned (some e) → exit = .panic (.error e)) ∧
        main w = ⟨[.getDB dbPath (.returned (db, none)),
          .newClient clientParams (.returned client),
          .init ⟨client, db⟩ (.returned (c, none)),
          .execute c (w.Execute c),
          .close db (w.Close db)], exit⟩) := by
  rcases main_stages w with h | h | h | ⟨db, client, c, hdb, hcl, hin, hm⟩
  · exact Or.inl h
  · exact Or.inr (Or.inl h)
  · exact Or.inr (Or.inr (Or.inl h))
  · refine Or.inr (Or.inr (Or.inr ?_))
    rcases deferredClose_cases w db (w.Execute c) with ⟨hx, hd⟩ | ⟨hx, hd, hpanic⟩
    · refine Or.inl ⟨db, client, c, hdb, hcl, hin, hx, ?_⟩
      rw [hm, hd, hx]
      rfl
    · refine Or.inr ⟨db, client, c, (deferredClose w db (w.Execute c)).2, hdb, hcl, hin, hx,
        hpanic, ?_⟩
      rw [hm, hd]
      rfl

/-! ## Theorems about `main` -/

/-- C1: on every run of `main` in which `pkg.GetDB` and `ctrl.Init` both
return without error, the collaborator calls are, in this order and each
once: `pkg.GetDB("ente-cli.db")`, `api.NewClient`, `ctrl.Init` on the
controller built from the returned client and store, `cmd.Execute` on that
same controller variable (as `Init` left it), and then the deferred
`db.Close` unless `cmd.Execute` ended the process; so `cmd.Execute` is
dispatched only after `Init` has returned nil. -/
theorem main_call_order (w : Collaborators)
    (hopen : ∃ p db, Event.getDB p (.returned (db, none)) ∈ (main w).trace)
    (hinit : ∃ c c', Event.init c (.returned (c', none)) ∈ (main w).trace) :
    ∃ db client c',
      (main w).trace =
        [.getDB dbPath (.returned (db, none)),
         .newClient clientParams (.returned client),
         .init ⟨client, db⟩ (.returned (c', none)),
         .execute c' (w.Execute c')] ++
        (if w.Execute c' = .exited then [] else [.close db (w.Close db)]) := by
  obtain ⟨c, c', hc⟩ := hinit
  obtain ⟨-, -, -⟩ := hopen
  rcases main_cases w with ⟨o, exit, -, -, -, hm⟩ | ⟨db, o, exit, -, -, -, hm⟩ |
    ⟨db, client, o, exit, -, -, -, hne, -, hm⟩ | ⟨db, client, c0, -, -, -, hx, hm⟩ |
    ⟨db, client, c0, exit, -, -, -, hx, -, hm⟩
  · rw [hm] at hc
    simp only [List.mem_singleton] at hc
    cases hc
  · rw [hm] at hc
    simp only [List.mem_cons, List.mem_singleton, List.not_mem_nil, or_false] at hc
    rcases hc with hc | hc <;> cases hc
  · rw [hm] at hc
    simp only [List.mem_cons, List.mem_singleton, List.not_mem_nil, or_false] at hc
    rcases hc with hc | hc | hc
    · cases hc
    · cases hc
    · cases hc
      exact absurd rfl (hne c')
  · refine ⟨db, client, c0, ?_⟩
    rw [hm, hx, if_pos rfl]
    rfl
  · refine ⟨db, client, c0, ?_⟩
    rw [hm, if_neg hx]
    rfl

/-- Witness for C1: the run in which every collaborator returns without error. -/
theorem main_call_order_witness :
    (∃ p db, Event.getDB p (.returned (db, none)) ∈ (main quietWorld).trace) ∧
    (∃ c c', Event.init c (.returned (c', none)) ∈ (main quietWorld).trace) ∧
    ∃ db client c',
      (main quietWorld).trace =
        [.getDB dbPath (.returned (db, none)),
         .newClient clientParams (.returned client),
         .init ⟨client, db⟩ (.returned (c', none)),
         .execute c' (quietWorld.Execute c')] ++
        (if quietWorld.Execute c' = .exited then [] else [.close db (quietWorld.Close db)]) :=
  ⟨⟨dbPath, ⟨1⟩, by simp [main, quietWorld]⟩,
   ⟨⟨⟨7⟩, ⟨1⟩⟩, ⟨⟨7⟩, ⟨1⟩⟩, by simp [main, quietWorld]⟩,
   main_call_order quietWorld ⟨dbPath, ⟨1⟩, by simp [main, quietWorld]⟩
     ⟨⟨⟨7⟩, ⟨1⟩⟩, ⟨⟨7⟩, ⟨1⟩⟩, by simp [main, quietWorld]⟩⟩

/-- C2: for every error `e` returned by `pkg.GetDB` (a busy lock included),
`main` panics with exactly `e` and the run consists of the `GetDB` call
alone: `api.NewClient`, `ctrl.Init`, `cmd.Execute` and `db.Close` are not
called. -/
theorem main_getDB_error (w : Collaborators) (db : Handle) (e : GoError)
    (h : w.GetDB dbPath = .returned (db, some e)) :
    main w = ⟨[.getDB dbPath (.returned (db, some e))], .panic (.error e)⟩ := by
  unfold main
  simp [h]

/-- Witness for C2: the store file is locked. -/
theorem main_getDB_error_witness :
    lockedWorld.GetDB dbPath = .returned (⟨0⟩, some ⟨"lock busy"⟩) ∧
    main lockedWorld =
      ⟨[.getDB dbPath (.returned (⟨0⟩, some ⟨"lock busy"⟩))],
        .panic (.error ⟨"lock busy"⟩)⟩ :=
  ⟨rfl, main_getDB_error lockedWorld ⟨0⟩ ⟨"lock busy"⟩ rfl⟩

/-- C8, as amended: on every run of `main` the first call is
`pkg.GetDB("ente-cli.db")` and no other `GetDB` call is made.  When it and
`api.NewClient`, called with `Debug = false` and
`Host = "http://localhost:8080"`, have returned, the next call is `ctrl.Init`
on the controller that holds exactly the returned client and the returned
store handle.  When `Init` returns nil, `cmd.Execute` is called next on that
same controller variable with the fields `Init` left in it, and the deferred
`db.Close`, if it runs, is called on the handle `GetDB` returned; when `Init`
does not return nil, nothing more is called. -/
theorem main_wiring (w : Collaborators) :
    (dbPath = "ente-cli.db" ∧ clientParams = ⟨false, "http://localhost:8080"⟩) ∧
    (∃ rest, (main w).trace = .getDB dbPath (w.GetDB dbPath) :: rest ∧
        ∀ p o, Event.getDB p o ∉ rest) ∧
    (∀ db client, w.GetDB dbPath = .returned (db, none) →
        w.NewClient clientParams = .returned client →
        ∃ rest, (main w).trace =
            [.getDB dbPath (.returned (db, none)),
             .newClient clientParams (.returned client),
             .init ⟨client, db⟩ (w.Init ⟨client, db⟩)] ++ rest ∧
          (∀ c', w.Init ⟨client, db⟩ = .returned (c', none) →
            rest = .execute c' (w.Execute c') ::
              (if w.Execute c' = .exited then [] else [.close db (w.Close db)])) ∧
          ((∀ c', w.Init ⟨client, db⟩ ≠ .returned (c', none)) → rest = [])) ∧
    (∀ p o, Event.newClient p o ∈ (main w).trace → p = clientParams) ∧
    (∀ c o, Event.init c o ∈ (main w).trace →
        Event.getDB dbPath (.returned (c.DB, none)) ∈ (main w).trace ∧
        Event.newClient clientParams (.returned c.Client) ∈ (main w).trace) ∧
    (∀ c x, Event.execute c x ∈ (main w).trace →
        ∃ c0, Event.init c0 (.returned (c, none)) ∈ (main w).trace) ∧
    (∀ h o, Event.close h o ∈ (main w).trace →
        Event.getDB dbPath (.returned (h, none)) ∈ (main w).trace) := by
  refine ⟨⟨rfl, rfl⟩, ?_⟩
  rcases main_cases w with ⟨o, exit, ho, hne, -, hm⟩ | ⟨db, o, exit, hdb, ho, hne, hm⟩ |
    ⟨db, client, o, exit, hdb, hcl, ho, hne, -, hm⟩ | ⟨db, client, c0, hdb, hcl, hin, hx, hm⟩ |
    ⟨db, client, c0, exit, hdb, hcl, hin, hx, -, hm⟩
  · rw [hm]
    refine ⟨⟨[], by rw [ho], by simp⟩, ?_, by simp, by simp, by simp, by simp⟩
    intro db client hdb _
    exact absurd (ho.symm.trans hdb) (hne db)
  · rw [hm]
    refine ⟨⟨_, by rw [hdb], by simp⟩, ?_, ?_, by simp, by simp, by simp⟩
    · intro db' client _ hcl
      exact absurd (ho.symm.trans hcl) (hne client)
    · intro p o' hp
      simp only [List.mem_cons, List.mem_singleton, List.not_mem_nil, or_false] at hp
      rcases hp with hp | hp
      · cases hp
      · cases hp
        rfl
  · rw [hm]
    refine ⟨⟨_, by rw [hdb], by simp⟩, ?_, ?_, ?_, by simp, by simp⟩
    · intro db' client' hdb' hcl'
      cases hdb'.symm.trans hdb
      cases hcl'.symm.trans hcl
      refine ⟨[], by rw [ho]; rfl, ?_, fun _ => rfl⟩
      intro c' hc'
      exact absurd (ho.symm.trans hc') (hne c')
    · intro p o' hp
      simp only [List.mem_cons, List.mem_singleton, List.not_mem_nil, or_false] at hp
      rcases hp with hp | hp | hp
      · cases hp
      · cases hp
        rfl
      · cases hp
    · intro c o' hc
      simp only [List.mem_cons, List.mem_singleton, List.not_mem_nil, or_false] at hc
      rcases hc with hc | hc | hc
      · cases hc
      · cases hc
      · cases hc
        exact ⟨List.mem_cons_self _ _, List.mem_cons_of_mem _ (List.mem_cons_self _ _)⟩
  · rw [hm]
    refine ⟨⟨_, by rw [hdb], ?_⟩, ?_, ?_, ?_, ?_, ?_⟩
    · intro p o hp
      simp only [List.mem_cons, List.mem_singleton, List.not_mem_nil, or_false] at hp
      rcases hp with hp | hp | hp <;> cases hp
    · intro db' client' hdb' hcl'
      cases hdb'.symm.trans hdb
      cases hcl'.symm.trans hcl
      refine ⟨[.execute c0 .exited], by rw [hin]; rfl, ?_, ?_⟩
      · intro c' hc'
        cases hc'.symm.trans hin
        rw [hx, if_pos rfl]
      · intro hno
        exact absurd hin (hno c0)
    · intro p o hp
      simp only [List.mem_cons, List.mem_singleton, List.not_mem_nil, or_false] at hp
      rcases hp with hp | hp | hp | hp
      · cases hp
      · cases hp
        rfl
      · cases hp
      · cases hp
    · intro c o hc
      simp only [List.mem_cons, List.mem_singleton, List.not_mem_nil, or_false] at hc
      rcases hc with hc | hc | hc | hc
      · cases hc
      · cases hc
      · cases hc
        exact ⟨List.mem_cons_self _ _, List.mem_cons_of_mem _ (List.mem_cons_self _ _)⟩
      · cases hc
    · intro c x hc
      simp only [List.mem_cons, List.mem_singleton, List.not_mem_nil, or_false] at hc
      rcases hc with hc | hc | hc | hc
      · cases hc
      · cases hc
      · cases hc
      · cases hc
        exact ⟨⟨client, db⟩, by simp⟩
    · intro h o hh
      simp only [List.mem_cons, List.mem_singleton, List.not_mem_nil, or_false] at hh
      rcases hh with hh | hh | hh | hh <;> cases hh
  · rw [hm]
    refine ⟨⟨_, by rw [hdb], ?_⟩, ?_, ?_, ?_, ?_, ?_⟩
    · intro p o hp
      simp only [List.mem_cons, List.mem_singleton, List.not_mem_nil, or_false] at hp
      rcases hp with hp | hp | hp | hp <;> cases hp
    · intro db' client' hdb' hcl'
      cases hdb'.symm.trans hdb
      cases hcl'.symm.trans hcl
      refine ⟨[.execute c0 (w.Execute c0), .close db (w.Close db)], by rw [hin]; rfl, ?_, ?_⟩
      · intro c' hc'
        cases hc'.symm.trans hin
        rw [if_neg hx]
      · intro hno
        exact absurd hin (hno c0)
    · intro p o hp
      simp only [List.mem_cons, List.mem_singleton, List.not_mem_nil, or_false] at hp
      rcases hp with hp | hp | hp | hp | hp
      · cases hp
      · cases hp
        rfl
      · cases hp
      · cases hp
      · cases hp
    · intro c o hc
      simp only [List.mem_cons, List.mem_singleton, List.not_mem_nil, or_false] at hc
      rcases hc with hc | hc | hc | hc | hc
      · cases hc
      · cases hc
      · cases hc
        exact ⟨List.mem_cons_self _ _, List.mem_cons_of_mem _ (List.mem_cons_self _ _)⟩
      · cases hc
      · cases hc
    · intro c x hc
      simp only [List.mem_cons, List.mem_singleton, List.not_mem_nil, or_false] at hc
      rcases hc with hc | hc | hc | hc | hc
      · cases hc
      · cases hc
      · cases hc
      · cases hc
        exact ⟨⟨client, db⟩, by simp⟩
      · cases hc
    · intro h o hh
      simp only [List.mem_cons, List.mem_singleton, List.not_mem_nil, or_false] at hh
      rcases hh with hh | hh | hh | hh | hh
      · cases hh
      · cases hh
      · cases hh
      · cases hh
      · cases hh
        exact List.mem_cons_self _ _

/-- Witness for C8 as amended: `Init` replaces both fields of the controller;
`Init` is still called on the controller `main` built, `Execute` gets the
fields `Init` left, and `Close` gets the handle `GetDB` returned. -/
theorem main_wiring_witness :
    rewiringWorld.GetDB dbPath = .returned (⟨1⟩, none) ∧
    rewiringWorld.NewClient clientParams = .returned ⟨7⟩ ∧
    ∃ rest, (main rewiringWorld).trace =
        [.getDB dbPath (.returned (⟨1⟩, none)),
         .newClient clientParams (.returned ⟨7⟩),
         .init ⟨⟨7⟩, ⟨1⟩⟩ (rewiringWorld.Init ⟨⟨7⟩, ⟨1⟩⟩)] ++ rest ∧
      (∀ c', rewiringWorld.Init ⟨⟨7⟩, ⟨1⟩⟩ = .returned (c', none) →
        rest = .execute c' (rewiringWorld.Execute c') ::
          (if rewiringWorld.Execute c' = .exited then []
            else [.close ⟨1⟩ (rewiringWorld.Close ⟨1⟩)])) ∧
      ((∀ c', rewiringWorld.Init ⟨⟨7⟩, ⟨1⟩⟩ ≠ .returned (c', none)) → rest = []) :=
  ⟨rfl, rfl, (main_wiring rewiringWorld).2.2.1 ⟨1⟩ ⟨7⟩ rfl rfl⟩

/-- Counterexample to C8 as stated: `GetDB` returns handle 1 and `NewClient`
returns client 7, `Init` replaces both fields through its pointer receiver,
and the controller handed to `cmd.Execute` holds neither that handle nor that
client. -/
theorem main_wiring_counterexample :
    rewiringWorld.GetDB dbPath = .returned (⟨1⟩, none) ∧
    rewiringWorld.NewClient clientParams = .returned ⟨7⟩ ∧
    ∃ c x, Event.execute c x ∈ (main rewiringWorld).trace ∧ c.DB ≠ ⟨1⟩ ∧ c.Client ≠ ⟨7⟩ :=
  ⟨rfl, rfl, ⟨⟨8⟩, ⟨2⟩⟩, .returned (), by simp [main, rewiringWorld, deferredClose],
    by decide, by decide⟩

/-- C9: for every error `e` returned by `ctrl.Init`, `main` panics with
exactly `e`, and neither `cmd.Execute` nor `db.Close` is called on that run. -/
theorem main_init_error (w : Collaborators) (c c' : ClICtrl) (e : GoError)
    (h : Event.init c (.returned (c', some e)) ∈ (main w).trace) :
    (main w).exit = .panic (.error e) ∧
    (∀ c'' o, Event.execute c'' o ∉ (main w).trace) ∧
    (∀ h' o, Event.close h' o ∉ (main w).trace) := by
  rcases main_cases w with ⟨o, exit, -, -, -, hm⟩ | ⟨db, o, exit, -, -, -, hm⟩ |
    ⟨db, client, o, exit, -, -, -, -, hex, hm⟩ | ⟨db, client, c0, -, -, -, -, hm⟩ |
    ⟨db, client, c0, exit, -, -, -, -, -, hm⟩
  · rw [hm] at h
    simp only [List.mem_singleton] at h
    cases h
  · rw [hm] at h
    simp only [List.mem_cons, List.mem_singleton, List.not_mem_nil, or_false] at h
    rcases h with h | h <;> cases h
  · rw [hm] at h ⊢
    simp only [List.mem_cons, List.mem_singleton, List.not_mem_nil, or_false] at h
    rcases h with h | h | h
    · cases h
    · cases h
    · cases h
      exact ⟨hex c' e rfl, by simp, by simp⟩
  · rw [hm] at h
    simp only [List.mem_cons, List.mem_singleton, List.not_mem_nil, or_false] at h
    rcases h with h | h | h | h <;> cases h
  · rw [hm] at h
    simp only [List.mem_cons, List.mem_singleton, List.not_mem_nil, or_false] at h
    rcases h with h | h | h | h | h <;> cases h

/-- Witness for C9: the store opens and `ctrl.Init` returns an error. -/
theorem main_init_error_witness :
    Event.init ⟨⟨7⟩, ⟨1⟩⟩ (.returned (⟨⟨7⟩, ⟨1⟩⟩, some ⟨"init failed"⟩)) ∈
      (main initFailsWorld).trace ∧
    ((main initFailsWorld).exit = .panic (.error ⟨"init failed"⟩) ∧
      (∀ c'' o, Event.execute c'' o ∉ (main initFailsWorld).trace) ∧
      (∀ h' o, Event.close h' o ∉ (main initFailsWorld).trace)) :=
  ⟨by simp [main, initFailsWorld],
   main_init_error initFailsWorld ⟨⟨7⟩, ⟨1⟩⟩ ⟨⟨7⟩, ⟨1⟩⟩ ⟨"init failed"⟩
     (by simp [main, initFailsWorld])⟩

/-- C10, as amended: on every run of `main`, `db.Close` is called if and only
if `pkg.GetDB` and `ctrl.Init` both returned without error and `cmd.Execute`
then handed control back (it returned, panicked or unwound with
`runtime.Goexit`) instead of ending the process or never returning.  When
`Close` is called it is the last call of the run, it directly follows the
`cmd.Execute` call, it is made on the handle `GetDB` returned, and no earlier
call is a `Close`; a non-nil error returned by `Close` is the value `main`
panics with; and when `Init` returns an error, `Close` is not called. -/
theorem main_close (w : Collaborators) :
    ((∃ h o, Event.close h o ∈ (main w).trace) ↔
      ∃ db client c, w.GetDB dbPath = .returned (db, none) ∧
        w.NewClient clientParams = .returned client ∧
        w.Init ⟨client, db⟩ = .returned (c, none) ∧ w.Execute c ≠ .exited) ∧
    ((∃ h o, Event.close h o ∈ (main w).trace) ↔
      ((∃ p db, Event.getDB p (.returned (db, none)) ∈ (main w).trace) ∧
        (∃ c c', Event.init c (.returned (c', none)) ∈ (main w).trace) ∧
        (∃ c x, Event.execute c x ∈ (main w).trace ∧ x ≠ .exited))) ∧
    (∀ h o, Event.close h o ∈ (main w).trace →
      ∃ before c x, (main w).trace = before ++ [.execute c x, .close h o] ∧
        x ≠ .exited ∧ o = w.Close h ∧
        Event.getDB dbPath (.returned (h, none)) ∈ before ∧
        ∀ h' o', Event.close h' o' ∉ before) ∧
    (∀ h e, Event.close h (.returned (some e)) ∈ (main w).trace →
      (main w).exit = .panic (.error e)) ∧
    (∀ c c' e, Event.init c (.returned (c', some e)) ∈ (main w).trace →
      ∀ h o, Event.close h o ∉ (main w).trace) := by
  rcases main_cases w with ⟨o, exit, ho, hne, -, hm⟩ | ⟨db, o, exit, hdb, ho, hne, hm⟩ |
    ⟨db, client, o, exit, hdb, hcl, ho, hne, -, hm⟩ | ⟨db, client, c0, hdb, hcl, hin, hx, hm⟩ |
    ⟨db, client, c0, exit, hdb, hcl, hin, hx, hpanic, hm⟩
  · rw [hm]
    refine ⟨?_, ?_, by simp, by simp, by simp⟩
    · constructor
      · simp
      · rintro ⟨db, client, c, hdb, -⟩
        exact absurd (ho.symm.trans hdb) (hne db)
    · constructor
      · simp
      · rintro ⟨-, ⟨c, c', hc⟩, -⟩
        simp only [List.mem_singleton] at hc
        cases hc
  · rw [hm]
    refine ⟨?_, ?_, by simp, by simp, by simp⟩
    · constructor
      · simp
      · rintro ⟨db', client, c, -, hcl, -⟩
        exact absurd (ho.symm.trans hcl) (hne client)
    · constructor
      · simp
      · rintro ⟨-, ⟨c, c', hc⟩, -⟩
        simp only [List.mem_cons, List.mem_singleton, List.not_mem_nil, or_false] at hc
        rcases hc with hc | hc <;> cases hc
  · rw [hm]
    refine ⟨?_, ?_, by simp, by simp, by simp⟩
    · constructor
      · simp
      · rintro ⟨db', client', c, hdb', hcl', hin', -⟩
        cases hdb'.symm.trans hdb
        cases hcl'.symm.trans hcl
        exact absurd (ho.symm.trans hin') (hne c)
    · constructor
      · simp
      · rintro ⟨-, -, ⟨c, x, hc, -⟩⟩
        simp only [List.mem_cons, List.mem_singleton, List.not_mem_nil, or_false] at hc
        rcases hc with hc | hc | hc <;> cases hc
  · rw [hm]
    refine ⟨?_, ?_, by simp, by simp, by simp⟩
    · constructor
      · simp
      · rintro ⟨db', client', c, hdb', hcl', hin', hne'⟩
        cases hdb'.symm.trans hdb
        cases hcl'.symm.trans hcl
        cases hin'.symm.trans hin
        exact absurd hx hne'
    · constructor
      · simp
      · rintro ⟨-, -, ⟨c, x, hc, hxne⟩⟩
        simp only [List.mem_cons, List.mem_singleton, List.not_mem_nil, or_false] at hc
        rcases hc with hc | hc | hc | hc
        · cases hc
        · cases hc
        · cases hc
        · cases hc
          exact absurd rfl hxne
  · rw [hm]
    have hclose : Event.close db (w.Close db) ∈
        [Event.getDB dbPath (.returned (db, none)),
         .newClient clientParams (.returned client),
         .init ⟨client, db⟩ (.returned (c0, none)),
         .execute c0 (w.Execute c0),
         .close db (w.Close db)] := by simp
    refine ⟨?_, ?_, ?_, ?_, ?_⟩
    · exact ⟨fun _ => ⟨db, client, c0, hdb, hcl, hin, hx⟩, fun _ => ⟨db, w.Close db, hclose⟩⟩
    · refine ⟨fun _ => ⟨⟨dbPath, db, by simp⟩, ⟨⟨client, db⟩, c0, by simp⟩,
        ⟨c0, w.Execute c0, by simp, hx⟩⟩, fun _ => ⟨db, w.Close db, hclose⟩⟩
    · intro h o hh
      simp only [List.mem_cons, List.mem_singleton, List.not_mem_nil, or_false] at hh
      rcases hh with hh | hh | hh | hh | hh
      · cases hh
      · cases hh
      · cases hh
      · cases hh
      · cases hh
        refine ⟨[.getDB dbPath (.returned (db, none)),
          .newClient clientParams (.returned client),
          .init ⟨client, db⟩ (.returned (c0, none))], c0, w.Execute c0, rfl, hx, rfl,
          List.mem_cons_self _ _, ?_⟩
        intro h' o' hh'
        simp only [List.mem_cons, List.mem_singleton, List.not_mem_nil, or_false] at hh'
        rcases hh' with hh' | hh' | hh' <;> cases hh'
    · intro h e hh
      simp only [List.mem_cons, List.mem_singleton, List.not_mem_nil, or_false] at hh
      rcases hh with hh | hh | hh | hh | hh
      · cases hh
      · cases hh
      · cases hh
      · cases hh
      · have h1 : h = db := by
          injection hh
        have h2 : Outcome.returned (some e) = w.Close db := by
          injection hh
        exact hpanic e h2.symm
    · intro c c' e hc
      simp only [List.mem_cons, List.mem_singleton, List.not_mem_nil, or_false] at hc
      rcases hc with hc | hc | hc | hc | hc <;> cases hc

/-- Witness for C10 as amended: every collaborator returns, so `Close` is called. -/
theorem main_close_witness :
    (∃ db client c, quietWorld.GetDB dbPath = .returned (db, none) ∧
      quietWorld.NewClient clientParams = .returned client ∧
      quietWorld.Init ⟨client, db⟩ = .returned (c, none) ∧ quietWorld.Execute c ≠ .exited) ∧
    ∃ h o, Event.close h o ∈ (main quietWorld).trace :=
  ⟨⟨⟨1⟩, ⟨7⟩, ⟨⟨7⟩, ⟨1⟩⟩, rfl, rfl, rfl, by simp [quietWorld]⟩,
    (main_close quietWorld).1.mpr
      ⟨⟨1⟩, ⟨7⟩, ⟨⟨7⟩, ⟨1⟩⟩, rfl, rfl, rfl, by simp [quietWorld]⟩⟩

/-- Counterexample to C10 as stated: `pkg.GetDB` and `ctrl.Init` return
without error, `cmd.Execute` ends the process, and `db.Close` is never
called, because the deferred function does not run. -/
theorem main_close_counterexample :
    (∃ p db, Event.getDB p (.returned (db, none)) ∈ (main exitingWorld).trace) ∧
    (∃ c c', Event.init c (.returned (c', none)) ∈ (main exitingWorld).trace) ∧
    ¬ ∃ h o, Event.close h o ∈ (main exitingWorld).trace :=
  ⟨⟨dbPath, ⟨1⟩, by simp [main, exitingWorld]⟩,
   ⟨⟨⟨7⟩, ⟨1⟩⟩, ⟨⟨7⟩, ⟨1⟩⟩, by simp [main, exitingWorld]⟩,
   by simp [main, exitingWorld, deferredClose]⟩

/-! ## Theorems about the modelled `EnsureFresh` -/

namespace SyncEngine

/-- C3, as amended: in the model of the specification's `EnsureFresh`, when
the first run synchronised (the store was due), a second run in succession
against the unchanged remote, with any `maxAge`, clock reading and force
flag, leaves the records, the queue of PendingMutations, the staged remote
data and the SyncCursor exactly as the first run left them; the last
full-sync timestamp is the first run's or the second run's clock reading, so
the whole store is identical when the two readings agree.  A successful first
run has consumed the change stream to its end. -/
theorem ensureFresh_idempotent (maxAge now : Nat) (forced : Bool) (r : Remote)
    (s : LocalStore) (hdue : isDue maxAge now forced s = true)
    (maxAge' now' : Nat) (forced' : Bool) :
    (EnsureFresh maxAge' now' forced' r (EnsureFresh maxAge now forced r s).store).store.records =
      (EnsureFresh maxAge now forced r s).store.records ∧
    (EnsureFresh maxAge' now' forced' r (EnsureFresh maxAge now forced r s).store).store.pending =
      (EnsureFresh maxAge now forced r s).store.pending ∧
    (EnsureFresh maxAge' now' forced' r (EnsureFresh maxAge now forced r s).store).store.staged =
      (EnsureFresh maxAge now forced r s).store.staged ∧
    (EnsureFresh maxAge' now' forced' r (EnsureFresh maxAge now forced r s).store).store.cursor =
      (EnsureFresh maxAge now forced r s).store.cursor ∧
    ((EnsureFresh maxAge' now' forced' r
          (EnsureFresh maxAge now forced r s).store).store.lastFullSync =
        (EnsureFresh maxAge now forced r s).store.lastFullSync ∨
      (EnsureFresh maxAge' now' forced' r
          (EnsureFresh maxAge now forced r s).store).store.lastFullSync = now') ∧
    (now' = now →
      (EnsureFresh maxAge' now' forced' r (EnsureFresh maxAge now forced r s).store).store =
        (EnsureFresh maxAge now forced r s).store) ∧
    ((EnsureFresh maxAge now forced r s).result = .success →
      r.pages.length ≤ (EnsureFresh maxAge now forced r s).store.cursor) := by
  have h1 : EnsureFresh maxAge now forced r s = finishPass r now (pullLoop r s) := by
    simp [EnsureFresh, hdue]
  rw [h1]
  cases hres : (pullLoop r s).result with
  | failure f =>
    rw [finishPass_failure hres]
    have hagain := pullLoop_failure_again r s f hres
    have h2 : (EnsureFresh maxAge' now' forced' r (pullLoop r s).store).store =
        (pullLoop r s).store := by
      unfold EnsureFresh
      split
      · rw [hagain, finishPass_failure rfl]
      · rfl
    rw [h2]
    refine ⟨rfl, rfl, rfl, rfl, Or.inl rfl, fun _ => rfl, ?_⟩
    intro h
    cases h
  | success =>
    rw [finishPass_success hres]
    have hend : r.pages.length ≤ (pullLoop r s).store.cursor := pullLoop_success_end r s hres
    have hend' : r.pages.length ≤
        ({ flushPending r (pullLoop r s).store with lastFullSync := now } : LocalStore).cursor :=
      hend
    have h2 : (EnsureFresh maxAge' now' forced' r
          { flushPending r (pullLoop r s).store with lastFullSync := now }).store =
        { flushPending r (pullLoop r s).store with lastFullSync := now } ∨
        (EnsureFresh maxAge' now' forced' r
          { flushPending r (pullLoop r s).store with lastFullSync := now }).store =
        { flushPending r (pullLoop r s).store with lastFullSync := now' } := by
      unfold EnsureFresh
      split
      · rcases pullLoop_at_end hend' with h | ⟨f, h⟩
        · right
          rw [h, finishPass_success rfl]
          simp only [flushPending_twice]
        · left
          rw [h, finishPass_failure rfl]
      · exact Or.inl rfl
    rcases h2 with h2 | h2
    · rw [h2]
      exact ⟨rfl, rfl, rfl, rfl, Or.inl rfl, fun _ => rfl, fun _ => hend⟩
    · rw [h2]
      refine ⟨rfl, rfl, rfl, rfl, Or.inr rfl, ?_, fun _ => hend⟩
      intro h
      rw [h]

/-- Witness for C3 as amended: a forced sync of the two-page stream at time
200, followed by a sync at time 300. -/
theorem ensureFresh_idempotent_witness :
    isDue 10 200 true cachedStore = true ∧
    ((EnsureFresh 10 300 false twoPages (EnsureFresh 10 200 true twoPages cachedStore).store).store.records =
      (EnsureFresh 10 200 true twoPages cachedStore).store.records ∧
    (EnsureFresh 10 300 false twoPages (EnsureFresh 10 200 true twoPages cachedStore).store).store.pending =
      (EnsureFresh 10 200 true twoPages cachedStore).store.pending ∧
    (EnsureFresh 10 300 false twoPages (EnsureFresh 10 200 true twoPages cachedStore).store).store.staged =
      (EnsureFresh 10 200 true twoPages cachedStore).store.staged ∧
    (EnsureFresh 10 300 false twoPages (EnsureFresh 10 200 true twoPages cachedStore).store).store.cursor =
      (EnsureFresh 10 200 true twoPages cachedStore).store.cursor ∧
    ((EnsureFresh 10 300 false twoPages
          (EnsureFresh 10 200 true twoPages cachedStore).store).store.lastFullSync =
        (EnsureFresh 10 200 true twoPages cachedStore).store.lastFullSync ∨
      (EnsureFresh 10 300 false twoPages
          (EnsureFresh 10 200 true twoPages cachedStore).store).store.lastFullSync = 300) ∧
    (300 = 200 →
      (EnsureFresh 10 300 false twoPages (EnsureFresh 10 200 true twoPages cachedStore).store).store =
        (EnsureFresh 10 200 true twoPages cachedStore).store) ∧
    ((EnsureFresh 10 200 true twoPages cachedStore).result = .success →
      twoPages.pages.length ≤ (EnsureFresh 10 200 true twoPages cachedStore).store.cursor)) :=
  ⟨rfl, ensureFresh_idempotent 10 200 true twoPages cachedStore rfl 10 300 false⟩

/-- Counterexample to C3 as stated.  First: the store was synchronised at time
100; a run at time 105 with `maxAge` 10 finds it fresh and does nothing, the
next run at time 120 finds it stale and pulls the two pages, so the store
after the second run is not the store after the first.  Second: after a
forced run at time 200, a forced run at time 300 against the unchanged remote
leaves a store with a different last full-sync timestamp. -/
theorem ensureFresh_idempotent_counterexample :
    (EnsureFresh 10 120 false twoPages (EnsureFresh 10 105 false twoPages cachedStore).store).store ≠
      (EnsureFresh 10 105 false twoPages cachedStore).store ∧
    (EnsureFresh 10 300 true twoPages (EnsureFresh 10 200 true twoPages cachedStore).store).store ≠
      (EnsureFresh 10 200 true twoPages cachedStore).store := by
  constructor
  · have h1 : EnsureFresh 10 105 false twoPages cachedStore = ⟨cachedStore, .success, []⟩ := rfl
    have h2 : (EnsureFresh 10 120 false twoPages cachedStore).store.cursor = 2 := by
      have hd : isDue 10 120 false cachedStore = true := rfl
      simp only [EnsureFresh, hd, if_true]
      rw [(finishPass_frame twoPages 120 _).1, twoPages_pull_cached]
      rfl
    rw [h1]
    intro h
    have hc := congrArg LocalStore.cursor h
    rw [h2] at hc
    exact absurd hc (by decide)
  · have hd1 : isDue 10 200 true cachedStore = true := rfl
    have h1 : (EnsureFresh 10 200 true twoPages cachedStore).store =
        { flushPending twoPages (pullLoop twoPages cachedStore).store with lastFullSync := 200 } := by
      simp only [EnsureFresh, hd1, if_true]
      rw [finishPass_success (by rw [twoPages_pull_cached])]
    have hc : (EnsureFresh 10 200 true twoPages cachedStore).store.cursor = 2 := by
      rw [h1, twoPages_pull_cached]
      rfl
    have h2 : (EnsureFresh 10 300 true twoPages
        (EnsureFresh 10 200 true twoPages cachedStore).store).store.lastFullSync = 300 := by
      have hd2 : isDue 10 300 true (EnsureFresh 10 200 true twoPages cachedStore).store = true := rfl
      rw [ensureFresh_due twoPages hd2, twoPages_at_end _ hc, finishPass_success rfl]
    have h3 : (EnsureFresh 10 200 true twoPages cachedStore).store.lastFullSync = 200 := by
      rw [h1]
    intro h
    have hl := congrArg LocalStore.lastFullSync h
    rw [h2, h3] at hl
    exact absurd hl (by decide)

/-- C5: in the model of the specification's `EnsureFresh`, when the
LocalRecord that `Read` returns for an identifier is dirty and has a
PendingMutation queued, and the pass fetches a page holding a remote update
for the same identifier, then after the pass (pull, flush and all) that very
mutation is still in the queue, `Read` still returns the same record, which
is therefore not overwritten and still dirty, and the remote update is staged
instead of applied. -/
theorem ensureFresh_keeps_pending (maxAge now : Nat) (forced : Bool) (r : Remote)
    (s : LocalStore) (rec : LocalRecord) (m : PendingMutation) (e : Entity)
    (c : Nat) (pg : Page)
    (hrec : Read s rec.id = some rec) (hdirty : rec.dirty = true)
    (hm : m ∈ s.pending) (hid : m.id = rec.id)
    (hc : c ∈ (EnsureFresh maxAge now forced r s).fetched)
    (hpg : fetchFromCursor r c = .ok pg) (he : e ∈ pg.batch) (heid : e.id = rec.id) :
    m ∈ (EnsureFresh maxAge now forced r s).store.pending ∧
    Read (EnsureFresh maxAge now forced r s).store rec.id = some rec ∧
    (∃ x, Read (EnsureFresh maxAge now forced r s).store m.id = some x ∧ x.dirty = true) ∧
    e ∈ (EnsureFresh maxAge now forced r s).store.staged := by
  have hp : hasPending s rec.id = true := hid ▸ hasPending_of_mem hm
  have hmem : rec ∈ s.records := List.mem_of_find?_eq_some hrec
  have key : m ∈ (EnsureFresh maxAge now forced r s).store.pending ∧
      Read (EnsureFresh maxAge now forced r s).store rec.id = some rec ∧
      e ∈ (EnsureFresh maxAge now forced r s).store.staged := by
    unfold EnsureFresh at hc ⊢
    split at hc
    · rename_i hd
      simp only [hd, if_true]
      rw [(finishPass_frame r now _).2.2.2] at hc
      have hkeep := pullLoop_keeps r s hmem hp
      have hread := pullLoop_read r s hp hrec
      have hpend : m ∈ (pullLoop r s).store.pending := (pullLoop_frame r s).1 ▸ hm
      have hst : e ∈ (pullLoop r s).store.staged := hkeep.2.2 c hc pg hpg e he heid
      cases hres : (pullLoop r s).result with
      | failure f =>
        rw [finishPass_failure hres]
        exact ⟨hpend, hread, hst⟩
      | success =>
        rw [finishPass_success hres]
        have hs' : hasStaged (pullLoop r s).store rec.id = true := heid ▸ hasStaged_of_mem hst
        have hfl := flushPending_keeps (r := r) hpend hs' hid hread
        exact ⟨hfl.1, hfl.2, hst⟩
    · cases hc
  exact ⟨key.1, key.2.1, ⟨rec, hid ▸ key.2.1, hdirty⟩, key.2.2⟩

/-- Witness for C5: record 7 is dirty with a queued mutation, the remote sends
a newer version of Entity 7 and would accept the mutation if it were sent. -/
theorem ensureFresh_keeps_pending_witness :
    Read storeWithPending 7 = some ⟨7, 3, "local edit", .locallyPending, true, 2⟩ ∧
    (⟨7, "local edit", 99⟩ : PendingMutation) ∈ storeWithPending.pending ∧
    (0 ∈ (EnsureFresh 0 0 true updateOfSeven storeWithPending).fetched) ∧
    fetchFromCursor updateOfSeven 0 = .ok ⟨[⟨7, 4, "remote edit"⟩], 1, false⟩ ∧
    updateOfSeven.submitMutation 99 "local edit" = .accepted ∧
    ((⟨7, "local edit", 99⟩ : PendingMutation) ∈
        (EnsureFresh 0 0 true updateOfSeven storeWithPending).store.pending ∧
      Read (EnsureFresh 0 0 true updateOfSeven storeWithPending).store 7 =
        some ⟨7, 3, "local edit", .locallyPending, true, 2⟩ ∧
      (∃ x, Read (EnsureFresh 0 0 true updateOfSeven storeWithPending).store 7 = some x ∧
        x.dirty = true) ∧
      (⟨7, 4, "remote edit"⟩ : Entity) ∈
        (EnsureFresh 0 0 true updateOfSeven storeWithPending).store.staged) :=
  have hfetched : 0 ∈ (EnsureFresh 0 0 true updateOfSeven storeWithPending).fetched := by
    have hd : isDue 0 0 true storeWithPending = true := rfl
    simp only [EnsureFresh, hd, if_true]
    rw [(finishPass_frame updateOfSeven 0 _).2.2.2, updateOfSeven_pull]
    simp
  ⟨rfl, by simp [storeWithPending], hfetched, rfl, rfl,
    ensureFresh_keeps_pending 0 0 true updateOfSeven storeWithPending
      ⟨7, 3, "local edit", .locallyPending, true, 2⟩ ⟨7, "local edit", 99⟩
      ⟨7, 4, "remote edit"⟩ 0 ⟨[⟨7, 4, "remote edit"⟩], 1, false⟩
      rfl rfl (by simp [storeWithPending]) rfl hfetched rfl (by simp) rfl⟩

/-- C6: in the model of the specification's `EnsureFresh`, for every sequence
of `EnsureFresh` calls that all report success (each against whatever remote
state it meets), the SyncCursor after each call is at least the SyncCursor
before it. -/
theorem ensureFresh_cursor_monotone (calls : List Call) (s : LocalStore)
    (hok : ∀ p ∈ runCalls calls s, p.result = .success) :
    List.Chain (fun a b => a ≤ b) s.cursor
      ((runCalls calls s).map (fun p => p.store.cursor)) := by
  induction calls generalizing s with
  | nil => exact List.Chain.nil
  | cons c cs ih =>
    simp only [runCalls, List.map_cons]
    refine List.Chain.cons (ensureFresh_cursor_le _ _ _ _ s) (ih _ ?_)
    intro p hp
    exact hok p (by simp only [runCalls]; exact List.mem_cons_of_mem _ hp)

/-- Witness for C6: a forced sync of the two-page stream followed by a second
forced sync against the same remote. -/
theorem ensureFresh_cursor_monotone_witness :
    (∀ p ∈ runCalls [⟨0, 0, true, twoPages⟩, ⟨0, 1, true, twoPages⟩] emptyStore,
      p.result = .success) ∧
    List.Chain (fun a b => a ≤ b) emptyStore.cursor
      ((runCalls [⟨0, 0, true, twoPages⟩, ⟨0, 1, true, twoPages⟩] emptyStore).map
        (fun p => p.store.cursor)) :=
  have hd : isDue 0 0 true emptyStore = true := rfl
  have h1 : (EnsureFresh 0 0 true twoPages emptyStore).result = .success := by
    simp only [EnsureFresh, hd, if_true]
    rw [(finishPass_frame twoPages 0 _).2.2.1, twoPages_pull]
  have hc : (EnsureFresh 0 0 true twoPages emptyStore).store.cursor = 2 := by
    simp only [EnsureFresh, hd, if_true]
    rw [(finishPass_frame twoPages 0 _).1, twoPages_pull]
    rfl
  have h2 : (EnsureFresh 0 1 true twoPages
      (EnsureFresh 0 0 true twoPages emptyStore).store).result = .success := by
    have hd2 : isDue 0 1 true (EnsureFresh 0 0 true twoPages emptyStore).store = true := rfl
    rw [ensureFresh_due twoPages hd2, (finishPass_frame twoPages 1 _).2.2.1,
      twoPages_at_end _ hc]
  have hok : ∀ p ∈ runCalls [⟨0, 0, true, twoPages⟩, ⟨0, 1, true, twoPages⟩] emptyStore,
      p.result = .success := by
    intro p hp
    simp only [runCalls, List.mem_cons, List.mem_singleton, List.not_mem_nil, or_false] at hp
    rcases hp with rfl | rfl
    · exact h1
    · exact h2
  ⟨hok, ensureFresh_cursor_monotone
    [⟨0, 0, true, twoPages⟩, ⟨0, 1, true, twoPages⟩] emptyStore hok⟩

/-- C7: in the model of the specification's `EnsureFresh`, starting from the
empty Local Store, when the remote answers the first fetch with a page of 3
Entities and `hasMore = true` and the next fetch with a page of 2 Entities
and `hasMore = false`, all five identifiers distinct, then the pass succeeds,
`List(all)` yields exactly 5 LocalRecords (the five Entities as
remote-confirmed records) and the SyncCursor equals the second page's
`nextCursor`. -/
theorem ensureFresh_two_pages (maxAge now : Nat) (forced : Bool) (r : Remote)
    (pg1 pg2 : Page)
    (hdue : isDue maxAge now forced emptyStore = true)
    (h1 : fetchFromCursor r emptyStore.cursor = .ok pg1)
    (hmore1 : pg1.hasMore = true) (hlen1 : pg1.batch.length = 3)
    (h2 : fetchFromCursor r pg1.nextCursor = .ok pg2)
    (hmore2 : pg2.hasMore = false) (hlen2 : pg2.batch.length = 2)
    (hids : ((pg1.batch ++ pg2.batch).map (fun e => e.id)).Nodup) :
    (EnsureFresh maxAge now forced r emptyStore).result = .success ∧
    (listRecords all (EnsureFresh maxAge now forced r emptyStore).store).length = 5 ∧
    (listRecords all (EnsureFresh maxAge now forced r emptyStore).store).Perm
      ((pg1.batch ++ pg2.batch).map fromRemote) ∧
    (EnsureFresh maxAge now forced r emptyStore).store.cursor = pg2.nextCursor := by
  have h2' : fetchFromCursor r (commitPage emptyStore pg1).cursor = .ok pg2 := h2
  have hpull : pullLoop r emptyStore =
      ⟨commitPage (commitPage emptyStore pg1) pg2, .success,
        [emptyStore.cursor, (commitPage emptyStore pg1).cursor]⟩ := by
    rw [pullLoop_more h1 hmore1, pullLoop_last h2' hmore2]
  have hpend : (commitPage (commitPage emptyStore pg1) pg2).pending = [] :=
    ((commitPage_frame _ pg2).1).trans (commitPage_frame emptyStore pg1).1
  have hflush : flushPending r (commitPage (commitPage emptyStore pg1) pg2) =
      commitPage (commitPage emptyStore pg1) pg2 := by
    apply flushPending_settled
    intro m hm
    rw [hpend] at hm
    cases hm
  have hrun : EnsureFresh maxAge now forced r emptyStore =
      ⟨{ commitPage (commitPage emptyStore pg1) pg2 with lastFullSync := now }, .success,
        [emptyStore.cursor, (commitPage emptyStore pg1).cursor]⟩ := by
    simp only [EnsureFresh, hdue, if_true]
    rw [hpull, finishPass_success rfl, hflush]
  rw [List.map_append, List.nodup_append] at hids
  have hrec1 : (pg1.batch.foldl applyEntity emptyStore).records = pg1.batch.map fromRemote := by
    rw [foldl_applyEntity_fresh pg1.batch emptyStore hids.1]
    · rfl
    · intro e _ x hx
      cases hx
  have hrec : (commitPage (commitPage emptyStore pg1) pg2).records =
      (pg1.batch ++ pg2.batch).map fromRemote := by
    show (pg2.batch.foldl applyEntity (commitPage emptyStore pg1)).records = _
    rw [foldl_applyEntity_fresh pg2.batch _ hids.2.1]
    · show (pg1.batch.foldl applyEntity emptyStore).records ++ _ = _
      rw [hrec1, List.map_append]
    · intro e he x hx
      have hx' : x ∈ (pg1.batch.foldl applyEntity emptyStore).records := hx
      rw [hrec1, List.mem_map] at hx'
      obtain ⟨a, ha, rfl⟩ := hx'
      intro hEq
      exact hids.2.2 (List.mem_map.mpr ⟨a, ha, rfl⟩) (List.mem_map.mpr ⟨e, he, hEq.symm⟩)
  have hfilter : ∀ l : List LocalRecord, l.filter all = l := by
    intro l
    simp [all]
  rw [hrun]
  refine ⟨rfl, ?_, ?_, rfl⟩
  · simp only [listRecords, List.length_insertionSort, hfilter, hrec, List.length_map,
      List.length_append, hlen1, hlen2]
  · simp only [listRecords, hfilter, hrec]
    exact List.perm_insertionSort _ _

/-- Witness for C7: the five-Entity stream served as three and two. -/
theorem ensureFresh_two_pages_witness :
    isDue 0 0 true emptyStore = true ∧
    fetchFromCursor twoPages emptyStore.cursor =
      .ok ⟨[⟨1, 1, "a"⟩, ⟨2, 1, "b"⟩, ⟨3, 1, "c"⟩], 1, true⟩ ∧
    fetchFromCursor twoPages 1 = .ok ⟨[⟨4, 1, "d"⟩, ⟨5, 1, "e"⟩], 2, false⟩ ∧
    ((EnsureFresh 0 0 true twoPages emptyStore).result = .success ∧
    (listRecords all (EnsureFresh 0 0 true twoPages emptyStore).store).length = 5 ∧
    (listRecords all (EnsureFresh 0 0 true twoPages emptyStore).store).Perm
      (List.map fromRemote
        ([⟨1, 1, "a"⟩, ⟨2, 1, "b"⟩, ⟨3, 1, "c"⟩] ++ [⟨4, 1, "d"⟩, ⟨5, 1, "e"⟩])) ∧
    (EnsureFresh 0 0 true twoPages emptyStore).store.cursor = 2) :=
  ⟨rfl, rfl, rfl,
    ensureFresh_two_pages 0 0 true twoPages
      ⟨[⟨1, 1, "a"⟩, ⟨2, 1, "b"⟩, ⟨3, 1, "c"⟩], 1, true⟩ ⟨[⟨4, 1, "d"⟩, ⟨5, 1, "e"⟩], 2, false⟩
      rfl rfl rfl rfl rfl rfl rfl (by decide)⟩

end SyncEngine

end EnteCli
